import Mathlib

/-!
Verification development for the TS-ErrorsAnalysis repository.

The numeric carrier of the Python code is the IEEE-754 double. We embed it
shallowly as `EFloat`: an exact rational together with the special values
`nan`, `inf` (+∞) and `ninf` (−∞). The arithmetic on the special values
follows IEEE-754 (NaN propagation, signed infinities, `inf - inf = nan`,
`x / 0` conventions); on finite values it is exact rational arithmetic, so
rounding of doubles is abstracted away (no claim below depends on rounding).
Signed zero is not modelled: the code under analysis never distinguishes
`0.0` from `-0.0` (its `_safe_div` treats both alike). The square root is
modelled by the exact floor square root `ratSqrt` (the kernel-computable
analogue of `Rat.sqrt`), which is exact on perfect squares; every use of a
square root in a proof below is at a perfect square.

Embedded source files:
 * `src/src/errors.py` — `_safe_div`, `compute_error_metrics`;
 * `src/api/timeseries.py` — `smooth_data`, `moving_average`,
   `exponential_smoothing`, `fill_missing_data`, `forward_fill`,
   `backward_fill`;
 * `src/api/batch.py` — `batch_analyze`, `export_to_json`,
   `compare_runs`, `generate_summary_report`.
-/

/-- Downward linear search for the integer square root: the largest `j ≤ k`
with `j * j ≤ n`. Structurally recursive so that it reduces in the kernel. -/
def isqrtGo (n : Nat) : Nat → Nat
  | 0 => 0
  | k + 1 => if (k + 1) * (k + 1) ≤ n then k + 1 else isqrtGo n k

/-- Integer square root (the floor of the real square root), extensionally
equal to `Nat.sqrt` but kernel-computable. -/
def isqrtLin (n : Nat) : Nat := isqrtGo n n

/-- Rational square root, numerator and denominator separately, mirroring
`Rat.sqrt`; exact on perfect squares. -/
def ratSqrt (q : ℚ) : ℚ := mkRat (isqrtLin q.num.toNat) (isqrtLin q.den)

theorem isqrtGo_le_sq (n : Nat) : ∀ k, isqrtGo n k * isqrtGo n k ≤ n := by
  intro k
  induction k with
  | zero => simp [isqrtGo]
  | succ k ih =>
    by_cases h : (k + 1) * (k + 1) ≤ n
    · simp [isqrtGo, h]
    · simpa [isqrtGo, h] using ih

theorem isqrtGo_ge (n : Nat) : ∀ k j, j ≤ k → j * j ≤ n → j ≤ isqrtGo n k := by
  intro k
  induction k with
  | zero => intro j hj _; simpa [isqrtGo] using hj
  | succ k ih =>
    intro j hj hjn
    by_cases h : (k + 1) * (k + 1) ≤ n
    · simpa [isqrtGo, h] using hj
    · have hjk : j ≤ k := by
        rcases Nat.lt_or_ge j (k + 1) with h1 | h1
        · omega
        · exact absurd (Nat.le_trans (Nat.mul_le_mul h1 h1) hjn) h
      simpa [isqrtGo, h] using ih j hjk hjn

theorem isqrtLin_mul_self (a : Nat) : isqrtLin (a * a) = a := by
  unfold isqrtLin
  have hle : a ≤ a * a := by
    rcases Nat.eq_zero_or_pos a with h | h
    · simp [h]
    · calc a = 1 * a := (Nat.one_mul a).symm
        _ ≤ a * a := Nat.mul_le_mul_right a h
  have h1 : a ≤ isqrtGo (a * a) (a * a) := isqrtGo_ge (a * a) (a * a) a hle (Nat.le_refl _)
  have h2 : isqrtGo (a * a) (a * a) ≤ a := by
    by_contra hlt
    push_neg at hlt
    have := Nat.mul_self_lt_mul_self hlt
    have := isqrtGo_le_sq (a * a) (a * a)
    omega
  omega

theorem ratSqrt_mul_self (q : ℚ) (hq : 0 ≤ q) : ratSqrt (q * q) = q := by
  have hnum : (q * q).num = q.num * q.num := Rat.mul_self_num q
  have hden : (q * q).den = q.den * q.den := Rat.mul_self_den q
  have hq0 : 0 ≤ q.num := Rat.num_nonneg.mpr hq
  unfold ratSqrt
  rw [hnum, hden]
  have htn : (q.num * q.num).toNat = q.num.toNat * q.num.toNat := by
    rcases Int.eq_ofNat_of_zero_le hq0 with ⟨m, hm⟩
    have hcast : ((m : ℤ) * m) = ((m * m : ℕ) : ℤ) := by push_cast; ring
    rw [hm, hcast, Int.toNat_natCast, Int.toNat_natCast]
  rw [htn, isqrtLin_mul_self, isqrtLin_mul_self]
  have hself : ((q.num.toNat : ℤ)) = q.num := Int.toNat_of_nonneg hq0
  rw [hself, Rat.mkRat_self]

inductive EFloat where
  | fin : ℚ → EFloat
  | nan : EFloat
  | inf : EFloat
  | ninf : EFloat
deriving DecidableEq

namespace EFloat

/-- Model of `np.isfinite`. -/
def isFinite : EFloat → Bool
  | fin _ => true
  | _ => false

/-- Model of `np.isnan`. -/
def isNan : EFloat → Bool
  | nan => true
  | _ => false

/-- IEEE negation. -/
def neg : EFloat → EFloat
  | fin q => fin (-q)
  | nan => nan
  | inf => ninf
  | ninf => inf

/-- IEEE addition (exact on finite values). -/
def add : EFloat → EFloat → EFloat
  | nan, _ => nan
  | _, nan => nan
  | inf, ninf => nan
  | ninf, inf => nan
  | inf, _ => inf
  | _, inf => inf
  | ninf, _ => ninf
  | _, ninf => ninf
  | fin a, fin b => fin (a + b)

/-- IEEE subtraction. -/
def sub (a b : EFloat) : EFloat := add a (neg b)

/-- IEEE multiplication (exact on finite values, `inf * 0 = nan`). -/
def mul : EFloat → EFloat → EFloat
  | nan, _ => nan
  | _, nan => nan
  | inf, inf => inf
  | inf, ninf => ninf
  | ninf, inf => ninf
  | ninf, ninf => inf
  | inf, fin b => if b = 0 then nan else if 0 < b then inf else ninf
  | fin a, inf => if a = 0 then nan else if 0 < a then inf else ninf
  | ninf, fin b => if b = 0 then nan else if 0 < b then ninf else inf
  | fin a, ninf => if a = 0 then nan else if 0 < a then ninf else inf
  | fin a, fin b => fin (a * b)

/-- IEEE division (exact on finite values; `0/0 = nan`, `x/0 = ±inf`). -/
def div : EFloat → EFloat → EFloat
  | nan, _ => nan
  | _, nan => nan
  | inf, inf => nan
  | inf, ninf => nan
  | ninf, inf => nan
  | ninf, ninf => nan
  | inf, fin b => if 0 ≤ b then inf else ninf
  | ninf, fin b => if 0 ≤ b then ninf else inf
  | fin _, inf => fin 0
  | fin _, ninf => fin 0
  | fin a, fin b =>
      if b = 0 then (if a = 0 then nan else if 0 < a then inf else ninf)
      else fin (a / b)

/-- IEEE strict less-than (every comparison with NaN is false). -/
def blt : EFloat → EFloat → Bool
  | nan, _ => false
  | _, nan => false
  | ninf, ninf => false
  | ninf, _ => true
  | _, ninf => false
  | inf, _ => false
  | fin _, inf => true
  | fin a, fin b => decide (a < b)

/-- IEEE less-or-equal (false whenever an operand is NaN). -/
def ble (a b : EFloat) : Bool := !a.isNan && !b.isNan && !blt b a

/-- Model of `np.abs` / `abs`. -/
def eabs : EFloat → EFloat
  | fin q => fin |q|
  | nan => nan
  | inf => inf
  | ninf => inf

/-- Model of `np.sqrt` / `math.sqrt` as used by the code: NaN propagates,
`sqrt` of a negative is NaN, finite values go through `ratSqrt` (exact on
perfect squares — the only points at which proofs below evaluate it). -/
def esqrt : EFloat → EFloat
  | nan => nan
  | inf => inf
  | ninf => nan
  | fin q => if q < 0 then nan else fin (ratSqrt q)

/-- Model of `np.sum` over a vector. -/
def sumE (l : List EFloat) : EFloat := l.foldl add (fin 0)

/-- Model of `np.mean` (the empty mean is `0/0 = nan`, as in numpy). -/
def meanE (l : List EFloat) : EFloat := div (sumE l) (fin l.length)

/-- Model of `np.std(x, ddof=0)`: the square root of the mean squared
deviation from the mean. -/
def stdE (l : List EFloat) : EFloat :=
  esqrt (meanE (l.map (fun x => mul (sub x (meanE l)) (sub x (meanE l)))))

end EFloat

open EFloat

/-- `errors.py` `_safe_div`: `a / b if b not in (0.0, -0.0) else math.nan`. -/
def safe_div (a b : EFloat) : EFloat := if b = fin 0 then nan else div a b

/-- The record returned by `compute_error_metrics` (`errors.py`, class
`ErrorMetrics`). -/
structure ErrorMetrics where
  RMSE : EFloat
  NSC : EFloat
  Cor : EFloat
  NRMSE : EFloat
  MAE : EFloat
  StdT : EFloat
  StdP : EFloat
  MuT : EFloat
  MuP : EFloat
  PERS : EFloat
  SSE : EFloat
  SSEN : EFloat
  RMSEN : EFloat
  NRMSEN : EFloat
  MARE : EFloat
  R2 : EFloat
  RSR : EFloat
  PBIAS : EFloat
  sMAPE : EFloat
  KGE2009 : EFloat
  KGE2012 : EFloat
  d : EFloat
  d1 : EFloat
  Er : List EFloat
  Po : EFloat
  Pu : EFloat
deriving DecidableEq

deriving instance DecidableEq for Except

/-- Pairwise deletion of non-finite entries (`mask = isfinite(P) & isfinite(T);
P, T = P[mask], T[mask]` in `compute_error_metrics`). -/
def validPairs (P T : List EFloat) : List (EFloat × EFloat) :=
  (P.zip T).filter (fun pt => pt.1.isFinite && pt.2.isFinite)

/-- `resid = P - T` over the filtered pairs. -/
def residOf (Pf Tf : List EFloat) : List EFloat :=
  (Pf.zip Tf).map (fun pt => sub pt.1 pt.2)

/-- `SSE = np.sum(resid**2)`. -/
def sseOf (Pf Tf : List EFloat) : EFloat :=
  sumE ((residOf Pf Tf).map (fun r => mul r r))

/-- `RMSE = np.sqrt(SSE / n)` with `n` the filtered pair count. -/
def rmseOf (Pf Tf : List EFloat) : EFloat :=
  esqrt (div (sseOf Pf Tf) (fin Pf.length))

/-- `NRMSE = 100.0 * _safe_div(RMSE, StdT)`. -/
def nrmseOf (Pf Tf : List EFloat) : EFloat :=
  mul (fin 100) (safe_div (rmseOf Pf Tf) (stdE Tf))

/-- `denom_nsc = np.sum((T - MuT) ** 2)` (also the factors of `den_cor`). -/
def sqDevOf (l : List EFloat) : EFloat :=
  sumE (l.map (fun t => mul (sub t (meanE l)) (sub t (meanE l))))

/-- `NSC = 1.0 - _safe_div(SSE, denom_nsc)`. -/
def nscOf (Pf Tf : List EFloat) : EFloat :=
  sub (fin 1) (safe_div (sseOf Pf Tf) (sqDevOf Tf))

/-- `num_cor = np.sum((P - MuP) * (T - MuT))`. -/
def numCorOf (Pf Tf : List EFloat) : EFloat :=
  sumE ((Pf.zip Tf).map (fun pt => mul (sub pt.1 (meanE Pf)) (sub pt.2 (meanE Tf))))

/-- `den_cor = np.sqrt(np.sum((P - MuP)**2) * np.sum((T - MuT)**2))`. -/
def denCorOf (Pf Tf : List EFloat) : EFloat :=
  esqrt (mul (sqDevOf Pf) (sqDevOf Tf))

/-- `Cor = _safe_div(num_cor, den_cor)`. -/
def corOf (Pf Tf : List EFloat) : EFloat :=
  safe_div (numCorOf Pf Tf) (denCorOf Pf Tf)

/-- `R2 = Cor**2 if np.isfinite(Cor) else nan`. -/
def r2Of (Pf Tf : List EFloat) : EFloat :=
  if (corOf Pf Tf).isFinite then mul (corOf Pf Tf) (corOf Pf Tf) else nan

/-- `MARE`: mean of `|(T-P)/T|` over the positions with `|T| > 0`. -/
def mareOf (Pf Tf : List EFloat) : EFloat :=
  let nzPairs := (Pf.zip Tf).filter (fun pt => blt (fin 0) (eabs pt.2))
  if nzPairs.isEmpty then nan
  else meanE (nzPairs.map (fun pt => eabs (div (sub pt.2 pt.1) pt.2)))

/-- `SSEN = np.sum((T[:-1] - T[1:])**2)`. -/
def ssenOf (Tf : List EFloat) : EFloat :=
  sumE (((Tf.dropLast.zip Tf.tail).map (fun ab => sub ab.1 ab.2)).map (fun x => mul x x))

/-- `RMSEN = np.sqrt(_safe_div(SSEN, max(1, T2.size)))`. -/
def rmsenOf (Tf : List EFloat) : EFloat :=
  esqrt (safe_div (ssenOf Tf) (fin (max 1 Tf.tail.length)))

/-- `NRMSEN = 100.0 * _safe_div(RMSEN, StdT2)` with `StdT2 = std(T[1:])`. -/
def nrmsenOf (Tf : List EFloat) : EFloat :=
  mul (fin 100) (safe_div (rmsenOf Tf) (stdE Tf.tail))

/-- `PERS = 1.0 - _safe_div(SSE, SSEN) if SSEN > 0 else nan`. -/
def persOf (Pf Tf : List EFloat) : EFloat :=
  if blt (fin 0) (ssenOf Tf) then sub (fin 1) (safe_div (sseOf Pf Tf) (ssenOf Tf)) else nan

/-- `RSR = _safe_div(RMSE, StdT)`. -/
def rsrOf (Pf Tf : List EFloat) : EFloat :=
  safe_div (rmseOf Pf Tf) (stdE Tf)

/-- `PBIAS = 100 * _safe_div(sum(P - T), sum(T)) if abs(sum(T)) > 0 else nan`. -/
def pbiasOf (Pf Tf : List EFloat) : EFloat :=
  if blt (fin 0) (eabs (sumE Tf)) then
    mul (fin 100) (safe_div (sumE ((Pf.zip Tf).map (fun pt => sub pt.1 pt.2))) (sumE Tf))
  else nan

/-- `sMAPE`: `100 * mean(2|P-T| / (|P|+|T|))` over the pairs with a nonzero
denominator. -/
def smapeOf (Pf Tf : List EFloat) : EFloat :=
  let goodPairs := (Pf.zip Tf).filter (fun pt => blt (fin 0) (add (eabs pt.1) (eabs pt.2)))
  if goodPairs.isEmpty then nan
  else mul (fin 100) (meanE (goodPairs.map
         (fun pt => div (mul (fin 2) (eabs (sub pt.1 pt.2))) (add (eabs pt.1) (eabs pt.2)))))

/-- `KGE2009 = 1 - sqrt((r-1)^2 + (alpha-1)^2 + (beta-1)^2)`. -/
def kge2009Of (Pf Tf : List EFloat) : EFloat :=
  let r := corOf Pf Tf
  let alpha := safe_div (stdE Pf) (stdE Tf)
  let beta := safe_div (meanE Pf) (meanE Tf)
  sub (fin 1) (esqrt (add (add (mul (sub r (fin 1)) (sub r (fin 1)))
    (mul (sub alpha (fin 1)) (sub alpha (fin 1))))
    (mul (sub beta (fin 1)) (sub beta (fin 1)))))

/-- `KGE2012`: as 2009 but with the coefficient-of-variation ratio `gamma`. -/
def kge2012Of (Pf Tf : List EFloat) : EFloat :=
  let r := corOf Pf Tf
  let gamma := safe_div (safe_div (stdE Pf) (meanE Pf)) (safe_div (stdE Tf) (meanE Tf))
  let beta := safe_div (meanE Pf) (meanE Tf)
  sub (fin 1) (esqrt (add (add (mul (sub r (fin 1)) (sub r (fin 1)))
    (mul (sub gamma (fin 1)) (sub gamma (fin 1))))
    (mul (sub beta (fin 1)) (sub beta (fin 1)))))

/-- Willmott `d = 1 - _safe_div(SSE, sum((|P-MuT| + |T-MuT|)^2))`. -/
def dOf (Pf Tf : List EFloat) : EFloat :=
  sub (fin 1) (safe_div (sseOf Pf Tf)
    (sumE ((Pf.zip Tf).map (fun pt =>
      mul (add (eabs (sub pt.1 (meanE Tf))) (eabs (sub pt.2 (meanE Tf))))
          (add (eabs (sub pt.1 (meanE Tf))) (eabs (sub pt.2 (meanE Tf))))))))

/-- Willmott `d1 = 1 - _safe_div(sum(|P-T|), sum(|P-MuT| + |T-MuT|))`. -/
def d1Of (Pf Tf : List EFloat) : EFloat :=
  sub (fin 1) (safe_div (sumE ((Pf.zip Tf).map (fun pt => eabs (sub pt.1 pt.2))))
    (sumE ((Pf.zip Tf).map (fun pt =>
      add (eabs (sub pt.1 (meanE Tf))) (eabs (sub pt.2 (meanE Tf)))))))

/-- `Er = T - P` over the filtered pairs. -/
def erOf (Pf Tf : List EFloat) : List EFloat :=
  (Tf.zip Pf).map (fun tp => sub tp.1 tp.2)

/-- `Po = np.sum(Er <= 0) / Er.size`. -/
def poOf (Pf Tf : List EFloat) : EFloat :=
  div (fin (((erOf Pf Tf).filter (fun e => ble e (fin 0))).length)) (fin (erOf Pf Tf).length)

/-- `Pu = np.sum(Er > 0) / Er.size`. -/
def puOf (Pf Tf : List EFloat) : EFloat :=
  div (fin (((erOf Pf Tf).filter (fun e => blt (fin 0) e)).length)) (fin (erOf Pf Tf).length)

/-- `errors.py` `compute_error_metrics(P, T)`. Python raises `ValueError`
for the two structural validation failures; we model that with `Except`.
The per-field formulas are transcribed in the helper definitions above. -/
def compute_error_metrics (P T : List EFloat) : Except String ErrorMetrics :=
  if P.length ≠ T.length then
    .error "P and T must have the same length."
  else
    let Pf := (validPairs P T).map Prod.fst
    let Tf := (validPairs P T).map Prod.snd
    if Pf.length < 2 then
      .error "Need at least 2 paired values after removing NaNs/Infs."
    else
      .ok { RMSE := rmseOf Pf Tf, NSC := nscOf Pf Tf, Cor := corOf Pf Tf,
            NRMSE := nrmseOf Pf Tf, MAE := meanE ((residOf Pf Tf).map eabs),
            StdT := stdE Tf, StdP := stdE Pf, MuT := meanE Tf, MuP := meanE Pf,
            PERS := persOf Pf Tf, SSE := sseOf Pf Tf, SSEN := ssenOf Tf,
            RMSEN := rmsenOf Tf, NRMSEN := nrmsenOf Tf, MARE := mareOf Pf Tf,
            R2 := r2Of Pf Tf, RSR := rsrOf Pf Tf, PBIAS := pbiasOf Pf Tf,
            sMAPE := smapeOf Pf Tf, KGE2009 := kge2009Of Pf Tf,
            KGE2012 := kge2012Of Pf Tf, d := dOf Pf Tf, d1 := d1Of Pf Tf,
            Er := erOf Pf Tf, Po := poOf Pf Tf, Pu := puOf Pf Tf }

/-! ### `api/timeseries.py` -/

/-- The guard `limit is None or consecutive_nans <= limit` of the fill loops. -/
def limitOk (limit : Option Nat) (c : Nat) : Bool :=
  match limit with
  | none => true
  | some L => c ≤ L

/-- The loop body of `forward_fill` (`timeseries.py`): the state is the last
valid value seen (`last_valid`, `none` before the first valid entry) and the
current count of consecutive NaNs. A NaN with no previous valid value is
passed through and does not advance the count, exactly as in the source. -/
def ffillGo (limit : Option Nat) : Option EFloat → Nat → List EFloat → List EFloat
  | _, _, [] => []
  | last, cnt, x :: xs =>
    if x.isNan then
      match last with
      | none => x :: ffillGo limit none cnt xs
      | some v =>
          if limitOk limit (cnt + 1) then v :: ffillGo limit (some v) (cnt + 1) xs
          else x :: ffillGo limit (some v) (cnt + 1) xs
    else x :: ffillGo limit (some x) 0 xs

/-- `timeseries.py` `forward_fill(y, limit)`. -/
def forward_fill (y : List EFloat) (limit : Option Nat) : List EFloat :=
  ffillGo limit none 0 y

/-- `timeseries.py` `backward_fill(y, limit)`: the identical loop body run
from the right end of the array (the source iterates `i` from `len-1` down
to `0`), i.e. the forward loop on the reversed list, reversed back. -/
def backward_fill (y : List EFloat) (limit : Option Nat) : List EFloat :=
  (ffillGo limit none 0 y.reverse).reverse

/-- Model of `np.interp` at an integer query point `x` over the valid
`(index, value)` pairs in increasing index order: clamps to the first/last
value outside the index range and interpolates linearly in between. -/
def interpAt : List (Nat × EFloat) → Nat → EFloat
  | [], _ => EFloat.nan
  | [(_, f1)], _ => f1
  | (x1, f1) :: (x2, f2) :: rest, x =>
    if x ≤ x1 then f1
    else if x < x2 then
      add f1 (div (mul (sub f2 f1) (fin ((x - x1 : Nat) : ℚ))) (fin ((x2 - x1 : Nat) : ℚ)))
    else interpAt ((x2, f2) :: rest) x

/-- One step of a stable insertion sort: `x` is placed before the first
element `y` with `¬ lt y x`. `pySorted` below is extensionally the ordering
produced by Python `sorted` (a stable sort) whenever the comparisons on the
list elements are total; the proofs that use it carry that hypothesis. -/
def pyInsert (lt : α → α → Bool) (x : α) : List α → List α
  | [] => [x]
  | y :: ys => if lt y x then y :: pyInsert lt x ys else x :: y :: ys

/-- Stable sort (model of Python `sorted` and of numpy sorting on totally
comparable data). -/
def pySorted (lt : α → α → Bool) (l : List α) : List α := l.foldr (pyInsert lt) []

/-- Model of `np.nanmean`: the mean of the non-NaN entries. -/
def nanmeanE (l : List EFloat) : EFloat := meanE (l.filter (fun v => !v.isNan))

/-- Model of `np.nanmedian`: the median of the non-NaN entries in sorted
order (the average of the two middle entries for an even count). -/
def nanmedianE (l : List EFloat) : EFloat :=
  let s := pySorted blt (l.filter (fun v => !v.isNan))
  if s.length = 0 then nan
  else if s.length % 2 = 1 then s.getD (s.length / 2) nan
  else div (add (s.getD (s.length / 2 - 1) nan) (s.getD (s.length / 2) nan)) (fin 2)

inductive FillMethod where
  | linear
  | forward
  | backward
  | mean
  | median
deriving DecidableEq

/-- `timeseries.py` `fill_missing_data(y, method, limit)`: returns
`(filled, mask)` where `mask = np.isnan(y)`; if there is no missing value the
source returns the copy together with `np.zeros_like(y, dtype=bool)`. The
unknown-method branch of the source raises and is unreachable over the
enumerated method type. -/
def fill_missing_data (y : List EFloat) (method : FillMethod) (limit : Option Nat) :
    List EFloat × List Bool :=
  let mask := y.map (fun v => v.isNan)
  if mask.any (fun b => b) = false then (y, List.replicate y.length false)
  else
    match method with
    | .linear =>
        let valid := y.enum.filter (fun iv => !iv.2.isNan)
        if 2 ≤ valid.length then
          (y.enum.map (fun iv => if iv.2.isNan then interpAt valid iv.1 else iv.2), mask)
        else (y, mask)
    | .forward => (forward_fill y limit, mask)
    | .backward => (backward_fill y limit, mask)
    | .mean => (y.map (fun v => if v.isNan then nanmeanE y else v), mask)
    | .median => (y.map (fun v => if v.isNan then nanmedianE y else v), mask)

/-- `timeseries.py` `moving_average(y, window_size)`: differences of the
zero-prepended cumulative sum, divided by the window, then re-padded at the
start with the first computed value; numpy raises `IndexError` when the
computed core is empty (`result[0]` on an empty array) but padding is
required, which happens exactly when `window_size > len(y) ≥ 1`. -/
def moving_average (y : List EFloat) (window_size : Nat) : Except String (List EFloat) :=
  if window_size < 1 then .error "Window size must be >= 1"
  else
    let cumsum := List.scanl add (fin 0) y
    let core := ((cumsum.drop window_size).zip (cumsum.take (cumsum.length - window_size))).map
      (fun p => div (sub p.1 p.2) (fin window_size))
    let padSize := y.length - core.length
    if 0 < padSize then
      match core.head? with
      | none => .error "index 0 is out of bounds for axis 0 with size 0"
      | some c0 => .ok (List.replicate padSize c0 ++ core)
    else .ok core

/-- `timeseries.py` `exponential_smoothing(y, alpha)`; `result[0] = y[0]`
raises `IndexError` on an empty input. -/
def exponential_smoothing (y : List EFloat) (alpha : ℚ) : Except String (List EFloat) :=
  if ¬ (0 < alpha ∧ alpha ≤ 1) then .error "Alpha must be in (0, 1]"
  else
    match y with
    | [] => .error "index 0 is out of bounds for axis 0 with size 0"
    | h :: t =>
        .ok (List.scanl (fun prev x => add (mul (fin alpha) x) (mul (fin (1 - alpha)) prev)) h t)

inductive SmoothMethod where
  | moving_average
  | exponential
deriving DecidableEq

/-- `timeseries.py` `smooth_data(y, method, window_size, alpha)`. The
`savitzky_golay` branch delegates wholly to `scipy.signal.savgol_filter`
(an external library, not part of this repository) and is not embedded; no
claim refers to it. The unknown-method branch raises and is unreachable
over the enumerated type. -/
def smooth_data (y : List EFloat) (method : SmoothMethod) (window_size : Nat) (alpha : ℚ) :
    Except String (List EFloat) :=
  match method with
  | .moving_average => moving_average y window_size
  | .exponential => exponential_smoothing y alpha

/-! ### `api/batch.py` -/

/-- One entry of the `time_series_list` input of `batch_analyze`: the dict
keys `predicted`, `target` and the optional `name`. -/
structure SeriesItem where
  name : Option String
  predicted : List EFloat
  target : List EFloat
deriving DecidableEq

/-- One element of the result list of `batch_analyze`: either a success dict
(keys `name`, `success: True`, `n_points`, `metrics`) or a failure dict
(keys `name`, `success: False`, `error`). -/
inductive BatchRes where
  | ok : String → Nat → List (String × EFloat) → BatchRes
  | fail : String → String → BatchRes
deriving DecidableEq

/-- The `success` field of a result dict. -/
def BatchRes.success : BatchRes → Bool
  | .ok _ _ _ => true
  | .fail _ _ => false

/-- The `name` field of a result dict. -/
def BatchRes.name : BatchRes → String
  | .ok nm _ _ => nm
  | .fail nm _ => nm

/-- The `metrics` sub-dict of a result (empty for a failure entry). -/
def BatchRes.metrics : BatchRes → List (String × EFloat)
  | .ok _ _ ms => ms
  | .fail _ _ => []

/-- The `metrics` sub-dict built by `batch_analyze` for a success entry, in
the source key order. -/
def metricsDict (m : ErrorMetrics) : List (String × EFloat) :=
  [("RMSE", m.RMSE), ("NSC", m.NSC), ("Cor", m.Cor), ("NRMSE", m.NRMSE),
   ("MAE", m.MAE), ("R2", m.R2), ("RSR", m.RSR), ("PBIAS", m.PBIAS),
   ("sMAPE", m.sMAPE), ("KGE2009", m.KGE2009), ("KGE2012", m.KGE2012),
   ("d", m.d), ("d1", m.d1), ("PERS", m.PERS), ("MARE", m.MARE),
   ("MuT", m.MuT), ("MuP", m.MuP), ("StdT", m.StdT), ("StdP", m.StdP),
   ("Po", m.Po), ("Pu", m.Pu)]

/-- The body of the `batch_analyze` loop for the item at index `idx`: the
explicit length check producing the two-length message, then
`compute_error_metrics`, any error being captured as a failure entry (the
`except` branch of the source). -/
def process_item (idx : Nat) (item : SeriesItem) : BatchRes :=
  let nm := item.name.getD ("Series_" ++ toString (idx + 1))
  if item.predicted.length ≠ item.target.length then
    .fail nm ("Length mismatch: predicted(" ++ toString item.predicted.length ++
              ") vs target(" ++ toString item.target.length ++ ")")
  else
    match compute_error_metrics item.predicted item.target with
    | .error e => .fail nm e
    | .ok m => .ok nm item.predicted.length (metricsDict m)

/-- The `for idx, ts_data in enumerate(...)` loop of `batch_analyze`. -/
def batchGo (idx : Nat) : List SeriesItem → List BatchRes
  | [] => []
  | it :: rest => process_item idx it :: batchGo (idx + 1) rest

/-- `batch.py` `batch_analyze(time_series_list)`. -/
def batch_analyze (l : List SeriesItem) : List BatchRes := batchGo 0 l

/-- One entry of a per-metric ranking list (`rank` starts at 1). -/
structure RankEntry where
  rank : Nat
  name : String
  value : EFloat
deriving DecidableEq

/-- The per-metric `rankings` entry of `compare_runs`. -/
structure RankingInfo where
  higher_is_better : Bool
  ranking : List RankEntry
  best : String
  worst : String
deriving DecidableEq

/-- The per-metric `comparison_table` entry of `compare_runs`. -/
structure TableEntry where
  values : List (String × EFloat)
  minv : EFloat
  maxv : EFloat
  meanv : EFloat
  stdv : EFloat
  medianv : EFloat
deriving DecidableEq

/-- Model of `np.min` (propagates NaN, as numpy reductions do). -/
def npMin (l : List EFloat) : EFloat :=
  if l.any (fun v => v.isNan) then nan
  else match l with
    | [] => nan
    | h :: t => t.foldl (fun a b => if blt b a then b else a) h

/-- Model of `np.max` (propagates NaN). -/
def npMax (l : List EFloat) : EFloat :=
  if l.any (fun v => v.isNan) then nan
  else match l with
    | [] => nan
    | h :: t => t.foldl (fun a b => if blt a b then b else a) h

/-- Model of `np.median`: the middle of the sorted data, or the average of
the two middle entries; NaN input yields NaN (numpy checks the tail of the
partition for NaN). -/
def npMedian (l : List EFloat) : EFloat :=
  if l.any (fun v => v.isNan) then nan
  else
    let s := pySorted blt l
    if s.length = 0 then nan
    else if s.length % 2 = 1 then s.getD (s.length / 2) nan
    else div (add (s.getD (s.length / 2 - 1) nan) (s.getD (s.length / 2) nan)) (fin 2)

/-- Python dict assignment `d[k] = v` on an association list: an existing
key keeps its position and gets the new value, a new key is appended. -/
def dictInsert (l : List (String × EFloat)) (k : String) (v : EFloat) : List (String × EFloat) :=
  if l.any (fun kv => kv.1 = k) then l.map (fun kv => if kv.1 = k then (k, v) else kv)
  else l ++ [(k, v)]

/-- The `series_values` dict collected by `compare_runs` for one metric:
`series_values[result['name']] = val` over the successful results that carry
the metric. -/
def seriesValuesOf (m : String) (successful : List BatchRes) : List (String × EFloat) :=
  successful.foldl (fun acc r =>
    match r.metrics.lookup m with
    | some v => dictInsert acc r.name v
    | none => acc) []

/-- The `values` list collected by `compare_runs` for one metric. -/
def valuesOf (m : String) (successful : List BatchRes) : List EFloat :=
  successful.filterMap (fun r => r.metrics.lookup m)

/-- The hard-coded higher-is-better set of `compare_runs`. -/
def higher_is_better_metrics : List String :=
  ["NSC", "Cor", "R2", "KGE2009", "KGE2012", "d", "d1", "PERS"]

/-- The per-metric ranking of `compare_runs`:
`sorted(series_values.items(), key=lambda x: x[1], reverse=higher_is_better)`
followed by rank annotation `1..k`, `best`/`worst` the first/last name. -/
def mkRanking (m : String) (sv : List (String × EFloat)) : RankingInfo :=
  let hib := higher_is_better_metrics.contains m
  let sortedItems := pySorted (fun a b => if hib then blt b.2 a.2 else blt a.2 b.2) sv
  let ranking := sortedItems.enum.map (fun p => ⟨p.1 + 1, p.2.1, p.2.2⟩)
  { higher_is_better := hib
    ranking := ranking
    best := ((ranking.head?).map RankEntry.name).getD ""
    worst := ((ranking.getLast?).map RankEntry.name).getD "" }

/-- The per-metric statistics row of `compare_runs`. -/
def mkTable (m : String) (successful : List BatchRes) : TableEntry :=
  { values := seriesValuesOf m successful
    minv := npMin (valuesOf m successful)
    maxv := npMax (valuesOf m successful)
    meanv := meanE (valuesOf m successful)
    stdv := stdE (valuesOf m successful)
    medianv := npMedian (valuesOf m successful) }

/-- The comparison dict built by `compare_runs` on the non-error path. -/
structure Comparison where
  num_series : Nat
  series_names : List String
  metrics_compared : List String
  comparison_table : List (String × TableEntry)
  rankings : List (String × RankingInfo)
deriving DecidableEq

/-- `compare_runs` either returns the comparison dict or one of its two
diagnostic error dicts. -/
inductive CompareOutcome where
  | err : String → CompareOutcome
  | ok : Comparison → CompareOutcome
deriving DecidableEq

/-- `batch.py` `compare_runs(results, metrics_to_compare)`. Metrics whose
collected value list is empty are skipped (`if not values: continue`). -/
def compare_runs (results : List BatchRes) (metricsToCompare : Option (List String)) :
    CompareOutcome :=
  if results.isEmpty then .err "No results to compare"
  else
    let successful := results.filter (fun r => r.success)
    if successful.isEmpty then .err "No successful analyses to compare"
    else
      let metrics := match metricsToCompare with
        | none => (successful.headD (BatchRes.fail "" "")).metrics.map Prod.fst
        | some ms => ms
      let active := metrics.filter (fun m => !(valuesOf m successful).isEmpty)
      .ok { num_series := successful.length
            series_names := successful.map BatchRes.name
            metrics_compared := metrics
            comparison_table := active.map (fun m => (m, mkTable m successful))
            rankings := active.map (fun m => (m, mkRanking m (seriesValuesOf m successful))) }

/-- Python `sep.join(parts)`. -/
def joinWith (sep : String) : List String → String
  | [] => ""
  | [a] => a
  | a :: b :: rest => a ++ sep ++ joinWith sep (b :: rest)

/-- The JSON string escaping of `json.dumps`, for the quote and backslash
(no string serialized by this code contains control characters). -/
def jsonEscapeChars : List Char → List Char
  | [] => []
  | c :: cs =>
    (if c = '\\' then ['\\', '\\']
     else if c = '"' then ['\\', '"'] else [c]) ++ jsonEscapeChars cs

def jsonEscape (s : String) : String :=
  String.mk (jsonEscapeChars s.data)

/-- Rendering of a float in `json.dumps` output: the IEEE specials print as
the bare tokens `NaN`, `Infinity`, `-Infinity`; the decimal `repr` of a
finite double is abstracted by the exact rational rendering. -/
def jsonNum : EFloat → String
  | fin q => toString q
  | nan => "NaN"
  | inf => "Infinity"
  | ninf => "-Infinity"

/-- The JSON values produced by `export_to_json` (dict key order is
preserved, as in Python). -/
inductive JVal where
  | str : String → JVal
  | num : EFloat → JVal
  | boolv : Bool → JVal
  | intv : Nat → JVal
  | arr : List JVal → JVal
  | obj : List (String × JVal) → JVal

/-- Indentation of `json.dumps(..., indent=2)`. -/
def pad (n : Nat) : String := String.mk (List.replicate n ' ')

mutual

/-- `json.dumps(v, indent=2)` (item separator is a comma followed by a
newline and the key separator is a colon and a space, the defaults). -/
def renderJ (ind : Nat) : JVal → String
  | .str s => "\"" ++ jsonEscape s ++ "\""
  | .num x => jsonNum x
  | .boolv b => if b then "true" else "false"
  | .intv n => toString n
  | .arr [] => "[]"
  | .arr (x :: xs) => "[\n" ++ joinWith ",\n" (renderArr (ind + 2) (x :: xs)) ++ "\n" ++ pad ind ++ "]"
  | .obj [] => "\x7b\x7d"
  | .obj (kv :: kvs) =>
      "\x7b\n" ++ joinWith ",\n" (renderObj (ind + 2) (kv :: kvs)) ++ "\n" ++ pad ind ++ "\x7d"

/-- The lines of an array body. -/
def renderArr (ind : Nat) : List JVal → List String
  | [] => []
  | v :: vs => (pad ind ++ renderJ ind v) :: renderArr ind vs

/-- The lines of an object body. -/
def renderObj (ind : Nat) : List (String × JVal) → List String
  | [] => []
  | (k, v) :: kvs => (pad ind ++ "\"" ++ jsonEscape k ++ "\"" ++ ": " ++ renderJ ind v) :: renderObj ind kvs

end

mutual

/-- `json.dumps(v)` without `indent` (separators `", "` and `": "`). -/
def renderC : JVal → String
  | .str s => "\"" ++ jsonEscape s ++ "\""
  | .num x => jsonNum x
  | .boolv b => if b then "true" else "false"
  | .intv n => toString n
  | .arr xs => "[" ++ joinWith ", " (renderCArr xs) ++ "]"
  | .obj kvs => "\x7b" ++ joinWith ", " (renderCObj kvs) ++ "\x7d"

/-- The items of a compact array body. -/
def renderCArr : List JVal → List String
  | [] => []
  | v :: vs => renderC v :: renderCArr vs

/-- The items of a compact object body. -/
def renderCObj : List (String × JVal) → List String
  | [] => []
  | (k, v) :: kvs => ("\"" ++ jsonEscape k ++ "\"" ++ ": " ++ renderC v) :: renderCObj kvs

end

/-- The JSON value of one result dict, in the source key order. -/
def resultJson : BatchRes → JVal
  | .ok nm np ms =>
      .obj [("name", .str nm), ("success", .boolv true), ("n_points", .intv np),
            ("metrics", .obj (ms.map (fun kv => (kv.1, .num kv.2))))]
  | .fail nm e => .obj [("name", .str nm), ("success", .boolv false), ("error", .str e)]

/-- `batch.py` `export_to_json(results, pretty)`. The wall-clock reading
`datetime.utcnow().isoformat()` is an effect of the source; the shallow
embedding passes the read ISO string `timestamp` explicitly, and the source
appends the suffix `Z` to it. -/
def export_to_json (results : List BatchRes) (timestamp : String) (pretty : Bool) : String :=
  let payload := JVal.obj
    [("export_timestamp", .str (timestamp ++ "Z")),
     ("num_analyses", .intv results.length),
     ("num_successful", .intv (results.filter (fun r => r.success)).length),
     ("num_failed", .intv (results.filter (fun r => !r.success)).length),
     ("results", .arr (results.map resultJson))]
  if pretty then renderJ 0 payload else renderC payload

/-- The Python fixed-point format `f"x:.precf"` on the exact rational
carrier (rounded to the nearest multiple of `10^-prec`; the tie-break of
binary double formatting is abstracted). The IEEE specials render as Python
prints them. -/
def formatFixed (prec : Nat) : EFloat → String
  | fin q =>
      let r : ℤ := round (q * ((10 : ℚ) ^ prec))
      let a := r.natAbs
      let fpStr := toString (a % 10 ^ prec)
      (if r < 0 then "-" else "") ++ toString (a / 10 ^ prec) ++
        (if prec = 0 then "" else "." ++ String.mk (List.replicate (prec - fpStr.length) '0') ++ fpStr)
  | nan => "nan"
  | inf => "inf"
  | ninf => "-inf"

/-- The `"=" * 80` rule of the report. -/
def ruleEq : String := String.mk (List.replicate 80 '=')

/-- The `"-" * 80` rule of the report. -/
def ruleDash : String := String.mk (List.replicate 80 '-')

/-- The success block of `generate_summary_report` (empty when there is no
successful entry). The `.fail` branch of the inner match is unreachable:
the block is applied to the success-filtered list. -/
def successBlock (successful : List BatchRes) : List String :=
  if successful.isEmpty then []
  else
    [ruleDash, "SUCCESSFUL ANALYSES", ruleDash] ++
    successful.flatMap (fun r =>
      match r with
      | .ok nm np ms =>
          ["\n" ++ nm ++ ":",
           "  Data points: " ++ toString np,
           "  RMSE:     " ++ formatFixed 4 ((ms.lookup "RMSE").getD nan),
           "  NSE/NSC:  " ++ formatFixed 4 ((ms.lookup "NSC").getD nan),
           "  R:        " ++ formatFixed 4 ((ms.lookup "Cor").getD nan),
           "  KGE2012:  " ++ formatFixed 4 ((ms.lookup "KGE2012").getD nan),
           "  PBIAS:    " ++ formatFixed 2 ((ms.lookup "PBIAS").getD nan) ++ "%"]
      | .fail nm _ => ["\n" ++ nm ++ ":"])

/-- The failure block of `generate_summary_report` (empty when there is no
failed entry); `result.get('error', 'Unknown error')` always finds the
`error` key on a failure entry. -/
def failedBlock (failed : List BatchRes) : List String :=
  if failed.isEmpty then []
  else
    ["\n" ++ ruleDash, "FAILED ANALYSES", ruleDash] ++
    failed.flatMap (fun r =>
      match r with
      | .fail nm e => ["\n" ++ nm ++ ":", "  Error: " ++ e]
      | .ok nm _ _ => ["\n" ++ nm ++ ":", "  Error: Unknown error"])

/-- `batch.py` `generate_summary_report(results)`: the appended lines joined
with newlines. The wall-clock reading `datetime.utcnow().strftime(...)` is
passed explicitly as `now`. -/
def generate_summary_report (results : List BatchRes) (now : String) : String :=
  joinWith "\n"
    (ruleEq :: "TIME SERIES ANALYSIS BATCH REPORT" :: ruleEq ::
     ("Generated: " ++ now ++ " UTC") ::
     ("Total analyses: " ++ toString results.length) ::
     ("Successful: " ++ toString (results.filter (fun r => r.success)).length) ::
     ("Failed: " ++ toString (results.filter (fun r => !r.success)).length) ::
     "" ::
     (successBlock (results.filter (fun r => r.success)) ++
      failedBlock (results.filter (fun r => !r.success)) ++
      ["\n" ++ ruleEq]))

/-! ### Claims -/

/-- C3 (amended): on length-mismatched inputs `compute_error_metrics` raises
`ValueError` with the fixed message `P and T must have the same length.`,
which does not cite the two lengths; the message citing both lengths is
produced by the explicit length check of `batch_analyze` instead. -/
theorem c3_length_mismatch (P T : List EFloat) (idx : Nat) (nm : String)
    (h : P.length ≠ T.length) :
    compute_error_metrics P T = .error "P and T must have the same length." ∧
    process_item idx ⟨some nm, P, T⟩ =
      .fail nm ("Length mismatch: predicted(" ++ toString P.length ++
                ") vs target(" ++ toString T.length ++ ")") := by
  constructor
  · simp [compute_error_metrics, h]
  · simp [process_item, h]

/-- C3 witness: the amended claim applied at `predicted` of length 3 and
`target` of length 2. -/
theorem c3_witness :
    ([fin 1, fin 2, fin 3] : List EFloat).length ≠ ([fin 1, fin 2] : List EFloat).length ∧
    compute_error_metrics [fin 1, fin 2, fin 3] [fin 1, fin 2] =
      .error "P and T must have the same length." :=
  ⟨by decide, (c3_length_mismatch [fin 1, fin 2, fin 3] [fin 1, fin 2] 0 "A" (by decide)).1⟩

/-- C3 counterexample: at `predicted` of length 3 and `target` of length 2,
the `ValueError` message of `compute_error_metrics` contains no digit at
all, so it does not report the lengths 3 and 2 as the claim states. -/
theorem c3_counterexample :
    compute_error_metrics [fin 1, fin 2, fin 3] [fin 1, fin 2] =
      .error "P and T must have the same length." ∧
    "P and T must have the same length.".toList.all (fun c => !c.isDigit) = true := by
  constructor
  · decide
  · decide

/-- C5 (amended): for every input, method and limit, the mask returned by
`fill_missing_data` is `np.isnan(y)` — true exactly at the positions that
were missing in the input, whether or not they were filled. -/
theorem c5_mask_is_isnan (y : List EFloat) (method : FillMethod) (limit : Option Nat) :
    (fill_missing_data y method limit).2 = y.map (fun v => v.isNan) := by
  unfold fill_missing_data
  by_cases h : (y.map (fun v => v.isNan)).any (fun b => b) = false
  · rw [if_pos h]
    have : y.map (fun v => v.isNan) = List.replicate (y.map (fun v => v.isNan)).length false := by
      rw [List.eq_replicate_iff]
      refine ⟨rfl, ?_⟩
      intro b hb
      have := List.any_eq_false.mp h b hb
      simpa using this
    simpa [List.length_map] using this.symm
  · rw [if_neg h]
    cases method
    · by_cases h2 : 2 ≤ (y.enum.filter (fun iv => !iv.2.isNan)).length
      · simp [h2]
      · simp [h2]
    · rfl
    · rfl
    · rfl
    · rfl

/-- C5 counterexample: under forward fill, the leading missing position of
`[NaN, 1.0]` is not altered (there is no previous valid value), yet the
returned mask marks it `true`; so the mask is not "true exactly at altered
positions". -/
theorem c5_counterexample :
    fill_missing_data [EFloat.nan, fin 1] .forward none = ([EFloat.nan, fin 1], [true, false]) := by
  decide

/-- The final `(last_valid, consecutive_nans)` state of the forward-fill
loop after a list of entries (proof infrastructure for the run lemma). -/
def ffillState : Option EFloat → Nat → List EFloat → Option EFloat × Nat
  | last, cnt, [] => (last, cnt)
  | last, cnt, x :: xs =>
    if x.isNan then
      match last with
      | none => ffillState none cnt xs
      | some v => ffillState (some v) (cnt + 1) xs
    else ffillState (some x) 0 xs

theorem ffillGo_append (limit : Option Nat) :
    ∀ (xs ys : List EFloat) (last : Option EFloat) (cnt : Nat),
      ffillGo limit last cnt (xs ++ ys) =
        ffillGo limit last cnt xs ++
          ffillGo limit (ffillState last cnt xs).1 (ffillState last cnt xs).2 ys := by
  intro xs
  induction xs with
  | nil => intro ys last cnt; simp [ffillGo, ffillState]
  | cons x xs ih =>
    intro ys last cnt
    by_cases hx : x.isNan
    · cases last with
      | none => simp [ffillGo, ffillState, hx, ih]
      | some v =>
        by_cases hl : limitOk limit (cnt + 1)
        · simp [ffillGo, ffillState, hx, hl, ih]
        · simp [ffillGo, ffillState, hx, hl, ih]
    · simp [ffillGo, ffillState, hx, ih]

theorem ffillState_replicate_nan (v : EFloat) :
    ∀ (k cnt : Nat), ffillState (some v) cnt (List.replicate k EFloat.nan) = (some v, cnt + k) := by
  intro k
  induction k with
  | zero => intro cnt; simp [ffillState]
  | succ k ih =>
    intro cnt
    rw [List.replicate_succ]
    simp only [ffillState, isNan]
    rw [ih]
    simp only [if_pos trivial, Prod.mk.injEq]
    constructor
    · trivial
    · omega

theorem ffillGo_replicate_nan (L : Nat) (v : EFloat) :
    ∀ (k cnt : Nat),
      ffillGo (some L) (some v) cnt (List.replicate k EFloat.nan) =
        List.replicate (min k (L - cnt)) v ++ List.replicate (k - (L - cnt)) EFloat.nan := by
  intro k
  induction k with
  | zero => intro cnt; simp [ffillGo]
  | succ k ih =>
    intro cnt
    rw [List.replicate_succ]
    by_cases hl : cnt + 1 ≤ L
    · have hok : limitOk (some L) (cnt + 1) = true := by simp [limitOk]; omega
      simp only [ffillGo, isNan, hok, if_true]
      rw [ih (cnt + 1)]
      obtain ⟨m, hm⟩ : ∃ m, L - cnt = m + 1 := ⟨L - cnt - 1, by omega⟩
      have h1 : L - (cnt + 1) = m := by omega
      have h2 : min (k + 1) (L - cnt) = min k m + 1 := by omega
      have h3 : (k + 1) - (L - cnt) = k - m := by omega
      rw [h1, h2, h3, List.replicate_succ]
      simp
    · have hok : limitOk (some L) (cnt + 1) = false := by simp [limitOk]; omega
      simp only [ffillGo, isNan, hok, if_false, Bool.false_eq_true]
      rw [ih (cnt + 1)]
      have h1 : L - (cnt + 1) = 0 := by omega
      have h0 : L - cnt = 0 := by omega
      rw [h1, h0]
      simp [List.replicate_succ]

theorem ffill_run (L k : Nat) (v : EFloat) (hv : v.isNan = false) (pre rest : List EFloat) :
    ffillGo (some L) none 0 (pre ++ v :: (List.replicate k EFloat.nan ++ rest)) =
      ffillGo (some L) none 0 pre ++ v ::
        (List.replicate (min k L) v ++ (List.replicate (k - L) EFloat.nan ++
         ffillGo (some L) (some v) k rest)) := by
  rw [ffillGo_append]
  congr 1
  simp only [ffillGo, hv, Bool.false_eq_true, if_false]
  rw [ffillGo_append, ffillState_replicate_nan, ffillGo_replicate_nan]
  simp

/-- C4 (amended): with a finite `limit = L`, `forward_fill` fills exactly
the first `min k L` positions of a run of `k` consecutive missing values
that follows a valid value `v`, leaving the remaining `k - L` positions
missing (so a run longer than `L` is partially, not entirely, unfilled);
`backward_fill` symmetrically fills the last `min k L` positions of a run
preceding a valid value. -/
theorem c4_fill_limit (pre : List EFloat) (v : EFloat) (k L : Nat) (rest : List EFloat)
    (hv : v.isNan = false) :
    forward_fill (pre ++ v :: (List.replicate k EFloat.nan ++ rest)) (some L) =
      ffillGo (some L) none 0 pre ++ v ::
        (List.replicate (min k L) v ++ (List.replicate (k - L) EFloat.nan ++
         ffillGo (some L) (some v) k rest)) ∧
    backward_fill (pre ++ (List.replicate k EFloat.nan ++ v :: rest)) (some L) =
      (ffillGo (some L) (some v) k pre.reverse).reverse ++
        (List.replicate (k - L) EFloat.nan ++ (List.replicate (min k L) v ++ v ::
         (ffillGo (some L) none 0 rest.reverse).reverse)) := by
  constructor
  · exact ffill_run L k v hv pre rest
  · unfold backward_fill
    have hrev : (pre ++ (List.replicate k EFloat.nan ++ v :: rest)).reverse =
        rest.reverse ++ v :: (List.replicate k EFloat.nan ++ pre.reverse) := by
      simp
    rw [hrev, ffill_run L k v hv rest.reverse pre.reverse]
    simp

/-- C4 witness: a run of 3 missing values after the valid value 5 with
limit 1: only the first position of the run is filled forward. -/
theorem c4_witness :
    (fin 5).isNan = false ∧
    forward_fill ([] ++ fin 5 :: (List.replicate 3 EFloat.nan ++ [])) (some 1) =
      ffillGo (some 1) none 0 [] ++ fin 5 ::
        (List.replicate (min 3 1) (fin 5) ++ (List.replicate (3 - 1) EFloat.nan ++
         ffillGo (some 1) (some (fin 5)) 3 [])) :=
  ⟨rfl, (c4_fill_limit [] (fin 5) 3 1 [] rfl).1⟩

/-- C4 counterexample: with limit 1, the run of 2 missing values after the
valid value 1 is longer than the limit, yet its first position is filled —
the claim that such a run is left entirely unfilled is false. -/
theorem c4_counterexample :
    forward_fill [fin 1, EFloat.nan, EFloat.nan] (some 1) = [fin 1, fin 1, EFloat.nan] := by
  decide

theorem sub_fin (a b : ℚ) : sub (fin a) (fin b) = fin (a - b) := by
  show fin (a + -b) = fin (a - b)
  rw [← sub_eq_add_neg]

theorem div_fin (a b : ℚ) (hb : b ≠ 0) : div (fin a) (fin b) = fin (a / b) := by
  simp [EFloat.div, hb]

theorem mul_fin (a b : ℚ) : mul (fin a) (fin b) = fin (a * b) := rfl

theorem add_fin (a b : ℚ) : add (fin a) (fin b) = fin (a + b) := rfl

theorem scanl_add_map_fin (t : List ℚ) : ∀ a : ℚ,
    List.scanl add (fin a) (t.map fin) = (List.scanl (· + ·) a t).map fin := by
  induction t with
  | nil => intro a; simp
  | cons x t ih =>
    intro a
    simp only [List.map_cons, List.scanl_cons]
    have h : add (fin a) (fin x) = fin (a + x) := rfl
    rw [h, ih]
    simp

theorem scanl_rat_getElem (t : List ℚ) : ∀ (a : ℚ) (j : Nat), j ≤ t.length →
    (List.scanl (· + ·) a t)[j]? = some (a + (t.take j).sum) := by
  induction t with
  | nil =>
    intro a j hj
    have h0 : j = 0 := Nat.le_zero.mp hj
    subst h0
    simp
  | cons x t ih =>
    intro a j hj
    rw [List.scanl_cons, List.singleton_append]
    cases j with
    | zero => simp
    | succ j =>
      rw [List.getElem?_cons_succ, ih (a + x) j (by simpa using hj)]
      congr 1
      rw [List.take_succ_cons, List.sum_cons]
      ring

/-- C9 (amended): `smooth` with method `moving_average` and a window with
`1 ≤ window ≤ len(y)` returns a series of the input length: the computed
core of windowed values re-padded at the start by repeating the first
computed value `window - 1` times; over finite inputs the core is exactly
the list of windowed arithmetic means. For `window > len(y) ≥ 1` the
function instead fails (numpy `IndexError`), see the counterexample. -/
theorem c9_moving_average (y : List EFloat) (w : Nat) (alpha : ℚ)
    (h1 : 1 ≤ w) (h2 : w ≤ y.length) :
    ∃ core : List EFloat,
      moving_average y w = .ok (List.replicate (w - 1) (core.headD (fin 0)) ++ core) ∧
      (List.replicate (w - 1) (core.headD (fin 0)) ++ core).length = y.length ∧
      core.length = y.length + 1 - w ∧
      smooth_data y .moving_average w alpha = moving_average y w ∧
      (∀ t : List ℚ, y = t.map fin →
        core = (List.range (y.length + 1 - w)).map
          (fun i => fin (((t.drop i).take w).sum / (w : ℚ)))) := by
  have hw : ¬ (w < 1) := by omega
  refine ⟨((List.scanl add (fin 0) y).drop w).zip
      ((List.scanl add (fin 0) y).take ((List.scanl add (fin 0) y).length - w)) |>.map
      (fun p => div (sub p.1 p.2) (fin w)), ?_, ?_, ?_, rfl, ?_⟩
  case refine_3 =>
    rw [List.length_map, List.length_zip, List.length_drop, List.length_take,
        List.length_scanl]
    omega
  case refine_2 =>
    rw [List.length_append, List.length_replicate, List.length_map, List.length_zip,
        List.length_drop, List.length_take, List.length_scanl]
    omega
  case refine_1 =>
    have hclen : (((List.scanl add (fin 0) y).drop w).zip
        ((List.scanl add (fin 0) y).take ((List.scanl add (fin 0) y).length - w)) |>.map
        (fun p => div (sub p.1 p.2) (fin w))).length = y.length + 1 - w := by
      rw [List.length_map, List.length_zip, List.length_drop, List.length_take,
          List.length_scanl]
      omega
    unfold moving_average
    rw [if_neg hw]
    rcases hc : ((List.scanl add (fin 0) y).drop w).zip
        ((List.scanl add (fin 0) y).take ((List.scanl add (fin 0) y).length - w)) |>.map
        (fun p => div (sub p.1 p.2) (fin w)) with _ | ⟨c0, cs⟩
    · exfalso
      rw [hc] at hclen
      simp at hclen
      omega
    · rw [hc] at hclen
      have hlc : cs.length + 1 = y.length + 1 - w := by simpa using hclen
      by_cases hp : 0 < y.length - (cs.length + 1)
      · have hpad : y.length - (cs.length + 1) = w - 1 := by omega
        simp only [hc, List.length_cons, List.head?_cons, List.headD_cons]
        rw [if_pos hp, hpad]
      · have hw1 : w = 1 := by omega
        simp only [hc, List.length_cons, List.headD_cons]
        rw [if_neg hp, hw1]
        simp
  case refine_4 =>
    intro t hyt
    subst hyt
    have hlen : (List.map fin t).length = t.length := List.length_map _ _
    rw [hlen] at h2 ⊢
    rw [scanl_add_map_fin t 0]
    have hlen2 : (List.scanl (· + ·) (0:ℚ) t).length = t.length + 1 := List.length_scanl _ _
    apply List.ext_getElem?
    intro i
    by_cases hi : i < t.length + 1 - w
    · have hwle : w + i ≤ t.length := by omega
      have hile : i ≤ t.length := by omega
      rw [← List.map_drop, ← List.map_take, List.length_map, List.zip_map, List.map_map,
          List.getElem?_map, List.getElem?_map, List.getElem?_range hi]
      rw [List.zip]
      rw [List.getElem?_zipWith']
      rw [List.getElem?_drop]
      rw [List.getElem?_take_of_lt (by rw [hlen2]; omega)]
      rw [scanl_rat_getElem t 0 (w + i) hwle, scanl_rat_getElem t 0 i hile]
      have hdiff : (t.take (w + i)).sum - (t.take i).sum = ((t.drop i).take w).sum := by
        have hsplit : t.take (i + w) = t.take i ++ (t.drop i).take w := List.take_add t i w
        rw [Nat.add_comm w i, hsplit, List.sum_append]
        ring
      have hne : ((w : ℚ)) ≠ 0 := by
        exact_mod_cast (by omega : w ≠ 0)
      simp only [zero_add, Option.map_some', Option.some_bind, Function.comp_apply,
        Prod.map_apply]
      rw [sub_fin, hdiff, div_fin _ _ hne]
    · rw [List.getElem?_eq_none, List.getElem?_eq_none]
      · simp only [List.length_map, List.length_range]
        omega
      · simp only [List.length_map, List.length_zip, List.length_drop, List.length_take,
          List.length_scanl]
        omega

/-- C9 witness: input of length 3 with window 2. -/
theorem c9_witness :
    (1 ≤ 2 ∧ 2 ≤ ([fin 1, fin 2, fin 3] : List EFloat).length) ∧
    (∃ core : List EFloat,
      moving_average [fin 1, fin 2, fin 3] 2 = .ok (List.replicate (2 - 1) (core.headD (fin 0)) ++ core) ∧
      (List.replicate (2 - 1) (core.headD (fin 0)) ++ core).length = ([fin 1, fin 2, fin 3] : List EFloat).length ∧
      core.length = ([fin 1, fin 2, fin 3] : List EFloat).length + 1 - 2 ∧
      smooth_data [fin 1, fin 2, fin 3] .moving_average 2 (3/10) = moving_average [fin 1, fin 2, fin 3] 2 ∧
      (∀ t : List ℚ, ([fin 1, fin 2, fin 3] : List EFloat) = t.map fin →
        core = (List.range (([fin 1, fin 2, fin 3] : List EFloat).length + 1 - 2)).map
          (fun i => fin (((t.drop i).take 2).sum / (2 : ℚ))))) :=
  ⟨⟨by omega, by decide⟩, c9_moving_average [fin 1, fin 2, fin 3] 2 (3/10) (by omega) (by decide)⟩

/-- C9 counterexample: with window 2 on an input of length 1, `smooth` with
`moving_average` does not return a series of the input length — numpy
raises `IndexError` (`result[0]` on the empty computed core). -/
theorem c9_counterexample :
    smooth_data [fin 1] .moving_average 2 (3/10) =
      .error "index 0 is out of bounds for axis 0 with size 0" := by
  decide

theorem batchGo_getElem (l : List SeriesItem) : ∀ (k i : Nat),
    (batchGo k l)[i]? = (l[i]?).map (fun item => process_item (k + i) item) := by
  induction l with
  | nil => intro k i; simp [batchGo]
  | cons it rest ih =>
    intro k i
    cases i with
    | zero => simp [batchGo]
    | succ i =>
      simp only [batchGo, List.getElem?_cons_succ]
      rw [ih (k + 1) i]
      have harith : k + 1 + i = k + (i + 1) := by omega
      rw [harith]

/-- C8: `batch_analyze` returns exactly one result per input item in input
order (`(batch_analyze l)[i]? = (l[i]?).map (process_item i)`); replacing
one item changes no other output position (no item's failure aborts the
batch); and a failing item — length mismatch or any `compute_error_metrics`
error — yields a per-item failure entry carrying the error message. -/
theorem c8_batch_isolation (l : List SeriesItem) :
    (batch_analyze l).length = l.length ∧
    (∀ i : Nat, (batch_analyze l)[i]? = (l[i]?).map (fun item => process_item i item)) ∧
    (∀ (i : Nat) (x : SeriesItem) (j : Nat), j ≠ i →
      (batch_analyze (l.set i x))[j]? = (batch_analyze l)[j]?) ∧
    (∀ (i : Nat) (item : SeriesItem), l[i]? = some item →
      item.predicted.length ≠ item.target.length →
      (batch_analyze l)[i]? = some (.fail (item.name.getD ("Series_" ++ toString (i + 1)))
        ("Length mismatch: predicted(" ++ toString item.predicted.length ++
         ") vs target(" ++ toString item.target.length ++ ")"))) ∧
    (∀ (i : Nat) (item : SeriesItem) (e : String), l[i]? = some item →
      item.predicted.length = item.target.length →
      compute_error_metrics item.predicted item.target = .error e →
      (batch_analyze l)[i]? = some (.fail (item.name.getD ("Series_" ++ toString (i + 1))) e)) := by
  have hget : ∀ i : Nat, (batch_analyze l)[i]? = (l[i]?).map (fun item => process_item i item) := by
    intro i
    unfold batch_analyze
    rw [batchGo_getElem l 0 i]
    simp
  refine ⟨?_, hget, ?_, ?_, ?_⟩
  · have h1 : ∀ (m : List SeriesItem) (k : Nat), (batchGo k m).length = m.length := by
      intro m
      induction m with
      | nil => intro k; rfl
      | cons a m ih => intro k; simp [batchGo, ih]
    exact h1 l 0
  · intro i x j hji
    have h2 : ∀ m : List SeriesItem, ∀ jj : Nat,
        (batch_analyze m)[jj]? = (m[jj]?).map (fun item => process_item jj item) := by
      intro m jj
      unfold batch_analyze
      rw [batchGo_getElem m 0 jj]
      simp
    rw [h2, hget, List.getElem?_set_ne (by omega)]
  · intro i item hitem hmismatch
    rw [hget i, hitem]
    simp only [Option.map_some']
    unfold process_item
    rw [if_pos hmismatch]
  · intro i item e hitem heq herr
    rw [hget i, hitem]
    simp only [Option.map_some']
    unfold process_item
    rw [if_neg (not_not_intro heq), herr]

/-- C8 witness: a two-item batch in which the first item has mismatched
lengths: its failure is recorded in place and the result list still has one
entry per item. -/
theorem c8_witness :
    (([⟨some "A", [fin 1, fin 2], [fin 1, fin 2, fin 3]⟩,
       ⟨some "B", [fin 1, fin 2], [fin 1, fin 1]⟩] : List SeriesItem)[0]? =
       some ⟨some "A", [fin 1, fin 2], [fin 1, fin 2, fin 3]⟩) ∧
    ([fin 1, fin 2] : List EFloat).length ≠ ([fin 1, fin 2, fin 3] : List EFloat).length ∧
    (batch_analyze [⟨some "A", [fin 1, fin 2], [fin 1, fin 2, fin 3]⟩,
       ⟨some "B", [fin 1, fin 2], [fin 1, fin 1]⟩]).length = 2 ∧
    (batch_analyze [⟨some "A", [fin 1, fin 2], [fin 1, fin 2, fin 3]⟩,
       ⟨some "B", [fin 1, fin 2], [fin 1, fin 1]⟩])[0]? =
      some (BatchRes.fail "A" "Length mismatch: predicted(2) vs target(3)") := by
  refine ⟨by decide, by decide, ?_, ?_⟩
  · exact (c8_batch_isolation _).1
  · exact (c8_batch_isolation _).2.2.2.1 0
      ⟨some "A", [fin 1, fin 2], [fin 1, fin 2, fin 3]⟩ (by decide) (by decide)

/-- C1 (amended): with equal lengths and at least 2 finite pairs, when the
population standard deviation of the filtered target (resp. of its tail
`T[1:]`) is exactly 0, `compute_error_metrics` returns `NRMSE = NaN`
(resp. `NRMSEN = NaN`) — not `+Inf` — and never raises: `_safe_div` maps a
zero denominator to `math.nan` and `100 * nan = nan`. -/
theorem c1_nrmse_zero_variance (P T : List EFloat)
    (hlen : P.length = T.length)
    (h2 : 2 ≤ (validPairs P T).length) :
    ∃ R, compute_error_metrics P T = .ok R ∧
      (stdE ((validPairs P T).map Prod.snd) = fin 0 →
        R.NRMSE = EFloat.nan ∧ R.NRMSE ≠ EFloat.inf) ∧
      (stdE (((validPairs P T).map Prod.snd).tail) = fin 0 →
        R.NRMSEN = EFloat.nan ∧ R.NRMSEN ≠ EFloat.inf) := by
  unfold compute_error_metrics
  rw [if_neg (not_not_intro hlen)]
  have hn : ¬ ((validPairs P T).map Prod.fst).length < 2 := by
    rw [List.length_map]; omega
  rw [if_neg hn]
  refine ⟨_, rfl, ?_, ?_⟩
  · intro hstd
    have hmain : nrmseOf ((validPairs P T).map Prod.fst) ((validPairs P T).map Prod.snd) =
        EFloat.nan := by
      unfold nrmseOf
      rw [hstd]
      simp [safe_div, EFloat.mul]
    exact ⟨hmain, by rw [show (ErrorMetrics.NRMSE _) = EFloat.nan from hmain]; decide⟩
  · intro hstd2
    have hmain : nrmsenOf ((validPairs P T).map Prod.snd) = EFloat.nan := by
      unfold nrmsenOf
      rw [hstd2]
      simp [safe_div, EFloat.mul]
    exact ⟨hmain, by rw [show (ErrorMetrics.NRMSEN _) = EFloat.nan from hmain]; decide⟩

unseal Rat.mul Rat.add Rat.inv Rat.sub in
/-- C1 witness: `P = [0, 1]`, `T = [1, 1]` — the filtered target is
constant, its standard deviation is exactly 0, and both hypotheses of the
amended claim hold. -/
theorem c1_witness :
    (([fin 0, fin 1] : List EFloat).length = ([fin 1, fin 1] : List EFloat).length) ∧
    2 ≤ (validPairs [fin 0, fin 1] [fin 1, fin 1]).length ∧
    stdE ((validPairs [fin 0, fin 1] [fin 1, fin 1]).map Prod.snd) = fin 0 ∧
    (∃ R, compute_error_metrics [fin 0, fin 1] [fin 1, fin 1] = .ok R ∧
      (stdE ((validPairs [fin 0, fin 1] [fin 1, fin 1]).map Prod.snd) = fin 0 →
        R.NRMSE = EFloat.nan ∧ R.NRMSE ≠ EFloat.inf) ∧
      (stdE (((validPairs [fin 0, fin 1] [fin 1, fin 1]).map Prod.snd).tail) = fin 0 →
        R.NRMSEN = EFloat.nan ∧ R.NRMSEN ≠ EFloat.inf)) :=
  ⟨by decide, by decide, by decide,
   c1_nrmse_zero_variance [fin 0, fin 1] [fin 1, fin 1] (by decide) (by decide)⟩

unseal Rat.mul Rat.add Rat.inv Rat.sub in
/-- C1 counterexample: at `P = [0, 1]`, `T = [1, 1]` (constant target,
`StdT = 0`), the computed NRMSE is `NaN`, not `+Inf` as the claim states. -/
theorem c1_counterexample :
    (compute_error_metrics [fin 0, fin 1] [fin 1, fin 1]).toOption.map
      (fun r => r.NRMSE) = some EFloat.nan ∧
    (compute_error_metrics [fin 0, fin 1] [fin 1, fin 1]).toOption.map
      (fun r => r.NRMSE) ≠ some EFloat.inf := by
  constructor
  · decide
  · decide

theorem foldl_add_fin (qs : List ℚ) : ∀ a : ℚ, (qs.map fin).foldl add (fin a) = fin (a + qs.sum) := by
  induction qs with
  | nil => intro a; simp
  | cons q qs ih =>
    intro a
    simp only [List.map_cons, List.foldl_cons]
    rw [add_fin, ih, List.sum_cons]
    ring_nf

theorem sumE_map_fin (qs : List ℚ) : sumE (qs.map fin) = fin qs.sum := by
  unfold sumE
  rw [foldl_add_fin qs 0]
  simp

theorem sumE_map_fin_comp (g : ℚ → ℚ) (t : List ℚ) :
    sumE (t.map (fun x => fin (g x))) = fin ((t.map g).sum) := by
  have h : t.map (fun x => fin (g x)) = (t.map g).map fin := by
    rw [List.map_map]; rfl
  rw [h, sumE_map_fin]

theorem meanE_map_fin (t : List ℚ) (hne : (t.length : ℚ) ≠ 0) :
    meanE (t.map fin) = fin (t.sum / t.length) := by
  unfold meanE
  rw [sumE_map_fin, List.length_map, div_fin _ _ hne]

theorem sum_nonneg_eq_zero_iff (l : List ℚ) (h : ∀ x ∈ l, 0 ≤ x) :
    l.sum = 0 ↔ ∀ x ∈ l, x = 0 := by
  induction l with
  | nil => simp
  | cons a l ih =>
    simp only [List.sum_cons, List.mem_cons]
    constructor
    · intro h0
      have ha : 0 ≤ a := h a (by simp)
      have hl : 0 ≤ l.sum := List.sum_nonneg (fun x hx => h x (by simp [hx]))
      have ha0 : a = 0 := by linarith
      have hl0 : l.sum = 0 := by linarith
      intro x hx
      rcases hx with rfl | hx
      · exact ha0
      · exact ((ih (fun x hx => h x (by simp [hx]))).mp hl0) x hx
    · intro hall
      have ha0 : a = 0 := hall a (Or.inl rfl)
      have hl0 : l.sum = 0 :=
        (ih (fun x hx => h x (by simp [hx]))).mpr (fun x hx => hall x (Or.inr hx))
      rw [ha0, hl0]
      ring

theorem variance_zero_iff (t : List ℚ) (hne : (t.length : ℚ) ≠ 0) :
    (t.map (fun x => (x - t.sum / t.length) * (x - t.sum / t.length))).sum = 0 ↔
      (∀ a ∈ t, ∀ b ∈ t, a = b) := by
  rw [sum_nonneg_eq_zero_iff _ (by
    intro x hx
    obtain ⟨a, _, rfl⟩ := List.mem_map.mp hx
    exact mul_self_nonneg _)]
  constructor
  · intro h a ha b hb
    have hxa := mul_self_eq_zero.mp (h _ (List.mem_map_of_mem _ ha))
    have hxb := mul_self_eq_zero.mp (h _ (List.mem_map_of_mem _ hb))
    have h1 : a = t.sum / t.length := by linarith [sub_eq_zero.mp hxa]
    have h2 : b = t.sum / t.length := by linarith [sub_eq_zero.mp hxb]
    rw [h1, h2]
  · intro hconst x hx
    obtain ⟨a, ha, rfl⟩ := List.mem_map.mp hx
    have hall : ∀ y ∈ t, y = a := fun y hy => hconst y hy a ha
    have hsum : t.sum = t.length • a := List.sum_eq_card_nsmul t a hall
    have hmu : t.sum / (t.length : ℚ) = a := by
      rw [hsum, nsmul_eq_mul]
      field_simp
    rw [hmu]
    ring

theorem zip_self_map (l : List EFloat) : l.zip l = l.map (fun x => (x, x)) := by
  induction l with
  | nil => rfl
  | cons x l ih => simp [ih]

/-- C6 (amended): for every finite target `T` of length at least 2 and
`P = T`, `compute_error_metrics` succeeds with `RMSE = MAE = SSE = 0`,
`Po = 1`, `Pu = 0`; `NSC = Cor = 1` when `T` is not constant, and
`NSC = Cor = NaN` when `T` is constant (the `0/0` of `_safe_div`). -/
theorem c6_perfect_prediction (t : List ℚ) (h2 : 2 ≤ t.length) :
    ∃ R, compute_error_metrics (t.map fin) (t.map fin) = .ok R ∧
      R.RMSE = fin 0 ∧ R.MAE = fin 0 ∧ R.SSE = fin 0 ∧ R.Po = fin 1 ∧ R.Pu = fin 0 ∧
      ((∀ a ∈ t, ∀ b ∈ t, a = b) → R.NSC = EFloat.nan ∧ R.Cor = EFloat.nan) ∧
      ((¬ ∀ a ∈ t, ∀ b ∈ t, a = b) → R.NSC = fin 1 ∧ R.Cor = fin 1) := by
  have hn0 : ((t.length : ℚ)) ≠ 0 := by
    exact_mod_cast (by omega : t.length ≠ 0)
  have hvp : validPairs (t.map fin) (t.map fin) = t.map (fun x => (fin x, fin x)) := by
    unfold validPairs
    rw [List.zip_map' fin fin t]
    rw [List.filter_eq_self]
    intro a ha
    obtain ⟨x, _, rfl⟩ := List.mem_map.mp ha
    rfl
  have hPf : (validPairs (t.map fin) (t.map fin)).map Prod.fst = t.map fin := by
    rw [hvp, List.map_map]; rfl
  have hTf : (validPairs (t.map fin) (t.map fin)).map Prod.snd = t.map fin := by
    rw [hvp, List.map_map]; rfl
  have hresid : residOf (t.map fin) (t.map fin) = t.map (fun _ => fin 0) := by
    unfold residOf
    rw [List.zip_map' fin fin t, List.map_map]
    apply List.map_congr_left
    intro a _
    show sub (fin a) (fin a) = fin 0
    rw [sub_fin, sub_self]
  have hsse : sseOf (t.map fin) (t.map fin) = fin 0 := by
    unfold sseOf
    rw [hresid, List.map_map]
    have h : ∀ a ∈ t, ((fun r => mul r r) ∘ (fun _ => fin 0)) a = fin 0 := by
      intro a _
      show mul (fin 0) (fin 0) = fin 0
      rw [mul_fin, mul_zero]
    rw [List.map_congr_left h]
    have h0 : (fun _ : ℚ => fin 0) = (fun x : ℚ => fin ((fun _ : ℚ => (0:ℚ)) x)) := rfl
    rw [h0, sumE_map_fin_comp]
    simp
  have hratsqrt0 : ratSqrt 0 = 0 := by
    simpa using ratSqrt_mul_self 0 (le_refl 0)
  have hrmse : rmseOf (t.map fin) (t.map fin) = fin 0 := by
    unfold rmseOf
    rw [hsse, List.length_map, div_fin _ _ hn0, zero_div]
    show esqrt (fin 0) = fin 0
    simp only [esqrt]
    rw [if_neg (by norm_num : ¬ (0:ℚ) < 0), hratsqrt0]
  have hmae : meanE ((residOf (t.map fin) (t.map fin)).map eabs) = fin 0 := by
    rw [hresid, List.map_map]
    have h : ∀ a ∈ t, (eabs ∘ (fun _ => fin 0)) a = fin ((fun _ : ℚ => (0:ℚ)) a) := by
      intro a _
      show fin |(0:ℚ)| = fin (0:ℚ)
      rw [abs_zero]
    rw [List.map_congr_left h]
    unfold meanE
    rw [sumE_map_fin_comp, List.length_map, div_fin _ _ hn0]
    simp
  have hmean : meanE (t.map fin) = fin (t.sum / t.length) := meanE_map_fin t hn0
  have hsqdev : sqDevOf (t.map fin) =
      fin ((t.map (fun x => (x - t.sum / t.length) * (x - t.sum / t.length))).sum) := by
    unfold sqDevOf
    rw [hmean, List.map_map]
    have h : ∀ a ∈ t, ((fun v => mul (sub v (fin (t.sum / t.length))) (sub v (fin (t.sum / t.length)))) ∘ fin) a =
        fin ((fun x => (x - t.sum / t.length) * (x - t.sum / t.length)) a) := by
      intro a _
      show mul (sub (fin a) (fin (t.sum / t.length))) (sub (fin a) (fin (t.sum / t.length))) = _
      rw [sub_fin, mul_fin]
    rw [List.map_congr_left h, sumE_map_fin_comp]
  have hs0 : 0 ≤ (t.map (fun x => (x - t.sum / t.length) * (x - t.sum / t.length))).sum := by
    apply List.sum_nonneg
    intro x hx
    obtain ⟨a, _, rfl⟩ := List.mem_map.mp hx
    exact mul_self_nonneg _
  have hnumcor : numCorOf (t.map fin) (t.map fin) =
      fin ((t.map (fun x => (x - t.sum / t.length) * (x - t.sum / t.length))).sum) := by
    unfold numCorOf
    rw [hmean, List.zip_map' fin fin t, List.map_map]
    have h : ∀ a ∈ t, ((fun pt => mul (sub pt.1 (fin (t.sum / t.length))) (sub pt.2 (fin (t.sum / t.length)))) ∘ (fun x => (fin x, fin x))) a =
        fin ((fun x => (x - t.sum / t.length) * (x - t.sum / t.length)) a) := by
      intro a _
      show mul (sub (fin a) (fin (t.sum / t.length))) (sub (fin a) (fin (t.sum / t.length))) = _
      rw [sub_fin, mul_fin]
    rw [List.map_congr_left h, sumE_map_fin_comp]
  have hdencor : denCorOf (t.map fin) (t.map fin) =
      fin ((t.map (fun x => (x - t.sum / t.length) * (x - t.sum / t.length))).sum) := by
    unfold denCorOf
    rw [hsqdev, mul_fin]
    show esqrt (fin _) = _
    simp only [esqrt]
    rw [if_neg (not_lt.mpr (mul_self_nonneg _)), ratSqrt_mul_self _ hs0]
  have her : erOf (t.map fin) (t.map fin) = t.map (fun _ => fin 0) := by
    unfold erOf
    rw [List.zip_map' fin fin t, List.map_map]
    apply List.map_congr_left
    intro a _
    show sub (fin a) (fin a) = fin 0
    rw [sub_fin, sub_self]
  have hpo : poOf (t.map fin) (t.map fin) = fin 1 := by
    unfold poOf
    rw [her]
    have hfil : (t.map (fun _ => fin 0)).filter (fun e => ble e (fin 0)) = t.map (fun _ => fin 0) := by
      rw [List.filter_eq_self]
      intro a ha
      obtain ⟨x, _, rfl⟩ := List.mem_map.mp ha
      decide
    rw [hfil, List.length_map, div_fin _ _ hn0, div_self hn0]
  have hpu : puOf (t.map fin) (t.map fin) = fin 0 := by
    unfold puOf
    rw [her]
    have hfil : (t.map (fun _ => fin 0)).filter (fun e => blt (fin 0) e) = [] := by
      rw [List.filter_eq_nil_iff]
      intro a ha
      obtain ⟨x, _, rfl⟩ := List.mem_map.mp ha
      decide
    rw [hfil, List.length_map, List.length_nil, div_fin _ _ hn0]
    norm_num
  have hnsc0 : (∀ a ∈ t, ∀ b ∈ t, a = b) →
      nscOf (t.map fin) (t.map fin) = EFloat.nan ∧
      corOf (t.map fin) (t.map fin) = EFloat.nan := by
    intro hconst
    have hs : (t.map (fun x => (x - t.sum / t.length) * (x - t.sum / t.length))).sum = 0 :=
      (variance_zero_iff t hn0).mpr hconst
    constructor
    · unfold nscOf
      rw [hsse, hsqdev, hs]
      rfl
    · unfold corOf
      rw [hnumcor, hdencor, hs]
      rfl
  have hnsc1 : (¬ ∀ a ∈ t, ∀ b ∈ t, a = b) →
      nscOf (t.map fin) (t.map fin) = fin 1 ∧
      corOf (t.map fin) (t.map fin) = fin 1 := by
    intro hncon
    have hs : (t.map (fun x => (x - t.sum / t.length) * (x - t.sum / t.length))).sum ≠ 0 := by
      intro h0
      exact hncon ((variance_zero_iff t hn0).mp h0)
    have hfe : fin ((t.map (fun x => (x - t.sum / t.length) * (x - t.sum / t.length))).sum) ≠ fin 0 := by
      intro h0
      exact hs (by injection h0)
    constructor
    · unfold nscOf
      rw [hsse, hsqdev]
      unfold safe_div
      rw [if_neg hfe, div_fin _ _ hs, zero_div, sub_fin, sub_zero]
    · unfold corOf
      rw [hnumcor, hdencor]
      unfold safe_div
      rw [if_neg hfe, div_fin _ _ hs, div_self hs]
  unfold compute_error_metrics
  rw [if_neg (not_not_intro rfl)]
  have hguard : ¬ ((validPairs (t.map fin) (t.map fin)).map Prod.fst).length < 2 := by
    rw [hPf, List.length_map]
    omega
  rw [if_neg hguard, hPf, hTf]
  refine ⟨_, rfl, hrmse, hmae, hsse, hpo, hpu, hnsc0, hnsc1⟩

/-- C6 witness: the non-constant target `T = P = [0, 1]`. -/
theorem c6_witness :
    2 ≤ ([(0:ℚ), 1] : List ℚ).length ∧
    (∃ R, compute_error_metrics (([(0:ℚ), 1] : List ℚ).map fin) (([(0:ℚ), 1] : List ℚ).map fin) = .ok R ∧
      R.RMSE = fin 0 ∧ R.MAE = fin 0 ∧ R.SSE = fin 0 ∧ R.Po = fin 1 ∧ R.Pu = fin 0 ∧
      ((∀ a ∈ ([(0:ℚ), 1] : List ℚ), ∀ b ∈ ([(0:ℚ), 1] : List ℚ), a = b) → R.NSC = EFloat.nan ∧ R.Cor = EFloat.nan) ∧
      ((¬ ∀ a ∈ ([(0:ℚ), 1] : List ℚ), ∀ b ∈ ([(0:ℚ), 1] : List ℚ), a = b) → R.NSC = fin 1 ∧ R.Cor = fin 1)) :=
  ⟨by decide, c6_perfect_prediction [0, 1] (by decide)⟩

unseal Rat.mul Rat.add Rat.inv Rat.sub in
/-- C6 counterexample: for the constant target `T = P = [1, 1]` the code
computes `NSC = 1 - _safe_div(0, 0) = NaN`, not `NSC = 1` as claimed. -/
theorem c6_counterexample :
    (compute_error_metrics [fin 1, fin 1] [fin 1, fin 1]).toOption.map (fun r => r.NSC) =
      some EFloat.nan ∧
    (compute_error_metrics [fin 1, fin 1] [fin 1, fin 1]).toOption.map (fun r => r.NSC) ≠
      some (fin 1) := by
  constructor
  · decide
  · decide

theorem lookup_map_pair {β : Type} (f : String → β) (ml : List String) (m : String) :
    (ml.map (fun x => (x, f x))).lookup m = if m ∈ ml then some (f m) else none := by
  induction ml with
  | nil => simp
  | cons a ml ih =>
    by_cases hma : m = a
    · subst hma
      simp [List.lookup]
    · have hbeq : (m == a) = false := by simp [hma]
      simp only [List.map_cons, List.lookup, hbeq, List.mem_cons]
      rw [ih]
      by_cases hmem : m ∈ ml
      · rw [if_pos hmem, if_pos (Or.inr hmem)]
      · rw [if_neg hmem, if_neg (by simp [hma, hmem])]

/-- C10: when `compare_runs` is called with `metrics_to_compare = None`, the
compared metric set comes solely from the metric keys of the first
successful result; any metric absent from that first result — even if
present in later successful results — appears in neither the comparison
table nor the rankings. -/
theorem c10_first_success_metrics (results : List BatchRes) (r : BatchRes)
    (hhead : (results.filter (fun x => x.success)).head? = some r) :
    ∃ c, compare_runs results none = .ok c ∧
      c.metrics_compared = r.metrics.map Prod.fst ∧
      (∀ m : String, m ∉ r.metrics.map Prod.fst →
        c.comparison_table.lookup m = none ∧ c.rankings.lookup m = none) := by
  have hsne : (results.filter (fun x => x.success)).isEmpty = false := by
    cases hfl : results.filter (fun x => x.success) with
    | nil => rw [hfl] at hhead; simp at hhead
    | cons a l => rfl
  have hrne : results.isEmpty = false := by
    cases results with
    | nil => simp [List.filter] at hsne
    | cons a l => rfl
  have hheadD : (results.filter (fun x => x.success)).headD (BatchRes.fail "" "") = r := by
    cases hfl : results.filter (fun x => x.success) with
    | nil => rw [hfl] at hhead; simp at hhead
    | cons a l =>
      rw [hfl] at hhead
      simp only [List.head?_cons, Option.some.injEq] at hhead
      rw [List.headD_cons, hhead]
  unfold compare_runs
  rw [if_neg (by simp [hrne]), if_neg (by simp [hsne])]
  refine ⟨_, rfl, ?_, ?_⟩
  · show ((results.filter (fun x => x.success)).headD (BatchRes.fail "" "")).metrics.map Prod.fst =
      r.metrics.map Prod.fst
    rw [hheadD]
  · intro m hm
    have hnact : m ∉ (((results.filter (fun x => x.success)).headD
        (BatchRes.fail "" "")).metrics.map Prod.fst).filter
        (fun mm => !(valuesOf mm (results.filter (fun x => x.success))).isEmpty) := by
      intro hmem
      exact hm (by
        have := List.mem_of_mem_filter hmem
        rwa [hheadD] at this)
    constructor
    · show ((((results.filter (fun x => x.success)).headD
        (BatchRes.fail "" "")).metrics.map Prod.fst).filter
        (fun mm => !(valuesOf mm (results.filter (fun x => x.success))).isEmpty) |>.map
        (fun mm => (mm, mkTable mm (results.filter (fun x => x.success))))).lookup m = none
      rw [lookup_map_pair]
      rw [if_neg hnact]
    · show ((((results.filter (fun x => x.success)).headD
        (BatchRes.fail "" "")).metrics.map Prod.fst).filter
        (fun mm => !(valuesOf mm (results.filter (fun x => x.success))).isEmpty) |>.map
        (fun mm => (mm, mkRanking mm (seriesValuesOf mm (results.filter (fun x => x.success)))))).lookup m = none
      rw [lookup_map_pair]
      rw [if_neg hnact]

/-- C10 witness: the second successful result carries an extra metric `XX`
that the first does not; `XX` is excluded from the comparison. -/
theorem c10_witness :
    (([BatchRes.fail "F" "boom", BatchRes.ok "A" 2 [("RMSE", fin 1)],
       BatchRes.ok "B" 2 [("RMSE", fin 2), ("XX", fin 3)]].filter
        (fun x => x.success)).head? = some (BatchRes.ok "A" 2 [("RMSE", fin 1)])) ∧
    (∃ c, compare_runs [BatchRes.fail "F" "boom", BatchRes.ok "A" 2 [("RMSE", fin 1)],
        BatchRes.ok "B" 2 [("RMSE", fin 2), ("XX", fin 3)]] none = .ok c ∧
      c.metrics_compared = ([("RMSE", fin 1)] : List (String × EFloat)).map Prod.fst ∧
      (∀ m : String, m ∉ ([("RMSE", fin 1)] : List (String × EFloat)).map Prod.fst →
        c.comparison_table.lookup m = none ∧ c.rankings.lookup m = none)) :=
  ⟨by decide,
   c10_first_success_metrics
     [BatchRes.fail "F" "boom", BatchRes.ok "A" 2 [("RMSE", fin 1)],
      BatchRes.ok "B" 2 [("RMSE", fin 2), ("XX", fin 3)]]
     (BatchRes.ok "A" 2 [("RMSE", fin 1)]) (by decide)⟩

theorem pyInsert_mem {α : Type} (lt : α → α → Bool) (x : α) :
    ∀ (s : List α) (u : α), u ∈ pyInsert lt x s ↔ u = x ∨ u ∈ s := by
  intro s
  induction s with
  | nil => intro u; simp [pyInsert]
  | cons y ys ih =>
    intro u
    by_cases hl : lt y x
    · simp only [pyInsert, hl, if_true, List.mem_cons, ih]
      tauto
    · simp only [pyInsert, hl, Bool.false_eq_true, if_false, List.mem_cons]

theorem pySorted_mem {α : Type} (lt : α → α → Bool) :
    ∀ (l : List α) (u : α), u ∈ pySorted lt l ↔ u ∈ l := by
  intro l
  induction l with
  | nil => intro u; simp [pySorted]
  | cons x l ih =>
    intro u
    show u ∈ pyInsert lt x (pySorted lt l) ↔ _
    rw [pyInsert_mem, ih]
    simp

theorem pySorted_length {α : Type} (lt : α → α → Bool) :
    ∀ l : List α, (pySorted lt l).length = l.length := by
  have hins : ∀ (x : α) (s : List α), (pyInsert lt x s).length = s.length + 1 := by
    intro x s
    induction s with
    | nil => rfl
    | cons y ys ih =>
      by_cases hl : lt y x
      · simp only [pyInsert, hl, if_true, List.length_cons, ih]
      · simp [pyInsert, hl]
  intro l
  induction l with
  | nil => rfl
  | cons x l ih =>
    show (pyInsert lt x (pySorted lt l)).length = _
    rw [hins, ih]
    rfl

theorem pyInsert_pairwise {α : Type} (lt : α → α → Bool) (P : α → Prop)
    (hasym : ∀ a b, P a → P b → lt a b = true → lt b a = false)
    (hntrans : ∀ a b c, P a → P b → P c → lt a b = false → lt b c = false → lt a c = false)
    (x : α) (hPx : P x) :
    ∀ s : List α, (∀ a ∈ s, P a) → s.Pairwise (fun a b => lt b a = false) →
      (pyInsert lt x s).Pairwise (fun a b => lt b a = false) := by
  intro s
  induction s with
  | nil => intro _ _; simp [pyInsert, List.pairwise_cons]
  | cons y ys ih =>
    intro hP hs
    rw [List.pairwise_cons] at hs
    by_cases hl : lt y x
    · simp only [pyInsert, hl, if_true]
      rw [List.pairwise_cons]
      constructor
      · intro u hu
        rcases (pyInsert_mem lt x ys u).mp hu with rfl | hu
        · exact hasym y u (hP y (by simp)) hPx hl
        · exact hs.1 u hu
      · exact ih (fun a ha => hP a (by simp [ha])) hs.2
    · have hyx : lt y x = false := by
        revert hl
        cases lt y x <;> simp
      simp only [pyInsert, hl, Bool.false_eq_true, if_false]
      rw [List.pairwise_cons]
      constructor
      · intro u hu
        rcases List.mem_cons.mp hu with rfl | hu
        · exact hyx
        · exact hntrans u y x (hP u (by simp [hu])) (hP y (by simp)) hPx (hs.1 u hu) hyx
      · rw [List.pairwise_cons]
        exact ⟨hs.1, hs.2⟩

theorem pySorted_pairwise {α : Type} (lt : α → α → Bool) (P : α → Prop)
    (hasym : ∀ a b, P a → P b → lt a b = true → lt b a = false)
    (hntrans : ∀ a b c, P a → P b → P c → lt a b = false → lt b c = false → lt a c = false) :
    ∀ l : List α, (∀ a ∈ l, P a) → (pySorted lt l).Pairwise (fun a b => lt b a = false) := by
  intro l
  induction l with
  | nil => intro _; simp [pySorted]
  | cons x l ih =>
    intro hP
    show (pyInsert lt x (pySorted lt l)).Pairwise _
    apply pyInsert_pairwise lt P hasym hntrans x (hP x (by simp))
    · intro a ha
      exact hP a (by simp [(pySorted_mem lt l a).mp ha])
    · exact ih (fun a ha => hP a (by simp [ha]))

theorem pyInsert_filter {α β : Type} [DecidableEq β] (lt : α → α → Bool) (val : α → β)
    (hirr : ∀ a b, val a = val b → lt a b = false) (x : α) (v : β) :
    ∀ s : List α, (pyInsert lt x s).filter (fun e => val e = v) =
      if val x = v then x :: s.filter (fun e => val e = v)
      else s.filter (fun e => val e = v) := by
  intro s
  induction s with
  | nil =>
    by_cases hxv : val x = v
    · simp [pyInsert, List.filter_cons, hxv]
    · simp [pyInsert, List.filter_cons, hxv]
  | cons y ys ih =>
    by_cases hl : lt y x
    · by_cases hxv : val x = v
      · by_cases hyv : val y = v
        · exact absurd (hirr y x (hyv.trans hxv.symm)) (by simp [hl])
        · simp only [pyInsert, hl, if_true, List.filter_cons]
          simp [hyv, ih, hxv]
      · by_cases hyv : val y = v
        · simp only [pyInsert, hl, if_true]
          rw [List.filter_cons, List.filter_cons]
          simp only [hyv, if_true, decide_True]
          rw [ih]
          simp [hxv]
        · simp only [pyInsert, hl, if_true]
          rw [List.filter_cons, List.filter_cons]
          simp only [hyv]
          rw [ih]
          simp [hxv]
    · by_cases hxv : val x = v
      · simp only [pyInsert, hl, Bool.false_eq_true, if_false]
        rw [List.filter_cons]
        simp [hxv]
      · simp only [pyInsert, hl, Bool.false_eq_true, if_false]
        rw [List.filter_cons]
        simp [hxv]

theorem pySorted_filter {α β : Type} [DecidableEq β] (lt : α → α → Bool) (val : α → β)
    (hirr : ∀ a b, val a = val b → lt a b = false) (v : β) :
    ∀ l : List α, (pySorted lt l).filter (fun e => val e = v) =
      l.filter (fun e => val e = v) := by
  intro l
  induction l with
  | nil => rfl
  | cons x l ih =>
    show (pyInsert lt x (pySorted lt l)).filter _ = _
    rw [pyInsert_filter lt val hirr x v, ih, List.filter_cons]
    by_cases hxv : val x = v
    · simp [hxv]
    · simp [hxv]

theorem blt_irrefl (a : EFloat) : blt a a = false := by
  cases a <;> simp [blt]

theorem blt_asymm (a b : EFloat) (h : blt a b = true) : blt b a = false := by
  cases a <;> cases b <;> simp_all [blt]
  linarith

theorem blt_neg_trans (a b c : EFloat)
    (ha : a.isNan = false) (hb : b.isNan = false) (hc : c.isNan = false)
    (h1 : blt a b = false) (h2 : blt b c = false) : blt a c = false := by
  cases a <;> cases b <;> cases c <;> simp_all [blt, isNan, EFloat.isNan]
  linarith

theorem enumFrom_rank_value (l : List (String × EFloat)) : ∀ k : Nat,
    ((List.enumFrom k l).map (fun p => (⟨p.1 + 1, p.2.1, p.2.2⟩ : RankEntry))).map
      (fun e => e.value) = l.map (fun e => e.2) := by
  induction l with
  | nil => intro k; rfl
  | cons a l ih =>
    intro k
    simp only [List.enumFrom, List.map_cons]
    rw [ih (k + 1)]

theorem enumFrom_rank_rank (l : List (String × EFloat)) : ∀ k : Nat,
    ((List.enumFrom k l).map (fun p => (⟨p.1 + 1, p.2.1, p.2.2⟩ : RankEntry))).map
      (fun e => e.rank) = List.range' (k + 1) l.length := by
  induction l with
  | nil => intro k; rfl
  | cons a l ih =>
    intro k
    simp only [List.enumFrom, List.map_cons, List.length_cons]
    rw [ih (k + 1), List.range'_succ]

theorem enumFrom_rank_filter (v : EFloat) (l : List (String × EFloat)) : ∀ k : Nat,
    (((List.enumFrom k l).map (fun p => (⟨p.1 + 1, p.2.1, p.2.2⟩ : RankEntry))).filter
      (fun e => e.value = v)).map (fun e => e.name) =
      (l.filter (fun e => e.2 = v)).map Prod.fst := by
  induction l with
  | nil => intro k; rfl
  | cons a l ih =>
    intro k
    simp only [List.enumFrom, List.map_cons]
    rw [List.filter_cons, List.filter_cons]
    by_cases hv : a.2 = v
    · simp only [hv, decide_True, if_true, List.map_cons]
      rw [ih (k + 1)]
    · simp only [hv, decide_False, Bool.false_eq_true, if_false]
      rw [ih (k + 1)]

theorem enum_eq_enumFrom {α : Type} (l : List α) : l.enum = List.enumFrom 0 l := rfl

theorem rankings_lookup_props (succ : List BatchRes) (ml : List String) (m : String)
    (rinfo : RankingInfo)
    (hr2 : (ml.map (fun mm => (mm, mkRanking mm (seriesValuesOf mm succ)))).lookup m
      = some rinfo)
    (hnn : (seriesValuesOf m succ).all (fun e => !e.2.isNan) = true) :
    (rinfo.higher_is_better = true ↔ m ∈ higher_is_better_metrics) ∧
    higher_is_better_metrics = ["NSC", "Cor", "R2", "KGE2009", "KGE2012", "d", "d1", "PERS"] ∧
    (rinfo.higher_is_better = true →
      (rinfo.ranking.map (fun e => e.value)).Pairwise (fun a b => blt a b = false)) ∧
    (rinfo.higher_is_better = false →
      (rinfo.ranking.map (fun e => e.value)).Pairwise (fun a b => blt b a = false)) ∧
    (∀ v : EFloat, (rinfo.ranking.filter (fun e => e.value = v)).map (fun e => e.name) =
      ((seriesValuesOf m succ).filter (fun e => e.2 = v)).map Prod.fst) ∧
    rinfo.ranking.map (fun e => e.rank) = List.range' 1 (seriesValuesOf m succ).length := by
  rw [lookup_map_pair] at hr2
  split at hr2
  · injection hr2 with hri
    subst hri
    have hP : ∀ e ∈ seriesValuesOf m succ, e.2.isNan = false := by
      intro e he
      simpa using List.all_eq_true.mp hnn e he
    refine ⟨?_, rfl, ?_, ?_, ?_, ?_⟩
    · show higher_is_better_metrics.contains m = true ↔ m ∈ higher_is_better_metrics
      simp
    · intro hhib
      have hcont : higher_is_better_metrics.contains m = true := hhib
      have hsorted := pySorted_pairwise
        (fun (a b : String × EFloat) =>
          if higher_is_better_metrics.contains m then blt b.2 a.2 else blt a.2 b.2)
        (fun e => e.2.isNan = false)
        (by
          intro a b _ _ hlt
          simp only [hcont, if_true] at hlt ⊢
          exact blt_asymm _ _ hlt)
        (by
          intro a b cc hPa hPb hPc hab hbc
          simp only [hcont, if_true] at hab hbc ⊢
          exact blt_neg_trans cc.2 b.2 a.2 hPc hPb hPa hbc hab)
        (seriesValuesOf m succ) hP
      show ((((pySorted (fun (a b : String × EFloat) =>
          if higher_is_better_metrics.contains m then blt b.2 a.2 else blt a.2 b.2)
          (seriesValuesOf m succ)).enum.map
          (fun p => (⟨p.1 + 1, p.2.1, p.2.2⟩ : RankEntry))).map
          (fun e => e.value)).Pairwise (fun a b => blt a b = false))
      rw [enum_eq_enumFrom, enumFrom_rank_value]
      refine List.Pairwise.map (fun e => e.2) ?_ hsorted
      intro a b hab
      simpa only [hcont, if_true] using hab
    · intro hhib
      have hcont : higher_is_better_metrics.contains m = false := hhib
      have hsorted := pySorted_pairwise
        (fun (a b : String × EFloat) =>
          if higher_is_better_metrics.contains m then blt b.2 a.2 else blt a.2 b.2)
        (fun e => e.2.isNan = false)
        (by
          intro a b _ _ hlt
          simp only [hcont, Bool.false_eq_true, if_false] at hlt ⊢
          exact blt_asymm _ _ hlt)
        (by
          intro a b cc hPa hPb hPc hab hbc
          simp only [hcont, Bool.false_eq_true, if_false] at hab hbc ⊢
          exact blt_neg_trans a.2 b.2 cc.2 hPa hPb hPc hab hbc)
        (seriesValuesOf m succ) hP
      show ((((pySorted (fun (a b : String × EFloat) =>
          if higher_is_better_metrics.contains m then blt b.2 a.2 else blt a.2 b.2)
          (seriesValuesOf m succ)).enum.map
          (fun p => (⟨p.1 + 1, p.2.1, p.2.2⟩ : RankEntry))).map
          (fun e => e.value)).Pairwise (fun a b => blt b a = false))
      rw [enum_eq_enumFrom, enumFrom_rank_value]
      refine List.Pairwise.map (fun e => e.2) ?_ hsorted
      intro a b hab
      simpa only [hcont, Bool.false_eq_true, if_false] using hab
    · intro v
      show ((((pySorted (fun (a b : String × EFloat) =>
          if higher_is_better_metrics.contains m then blt b.2 a.2 else blt a.2 b.2)
          (seriesValuesOf m succ)).enum.map
          (fun p => (⟨p.1 + 1, p.2.1, p.2.2⟩ : RankEntry))).filter
          (fun e => e.value = v)).map (fun e => e.name)) =
        ((seriesValuesOf m succ).filter (fun e => e.2 = v)).map Prod.fst
      rw [enum_eq_enumFrom, enumFrom_rank_filter]
      congr 1
      apply pySorted_filter
      intro a b heq
      rw [show a.2 = b.2 from heq]
      split
      · exact blt_irrefl _
      · exact blt_irrefl _
    · show (((pySorted (fun (a b : String × EFloat) =>
          if higher_is_better_metrics.contains m then blt b.2 a.2 else blt a.2 b.2)
          (seriesValuesOf m succ)).enum.map
          (fun p => (⟨p.1 + 1, p.2.1, p.2.2⟩ : RankEntry))).map (fun e => e.rank)) =
        List.range' 1 (seriesValuesOf m succ).length
      rw [enum_eq_enumFrom, enumFrom_rank_rank, pySorted_length]
  · exact absurd hr2 (by simp)

/-- C7: in `compare_runs`, a metric is ranked descending (with ties keeping
the original input order) exactly when it belongs to the hard-coded set
`NSC, Cor, R2, KGE2009, KGE2012, d, d1, PERS`, and ascending otherwise:
whenever the collected values are NaN-free (so that the comparisons are
total and Python stable sorting is well defined), the ranking values are
non-increasing (descending case) or non-decreasing (ascending case), the
sub-list of entries with any given value equals the corresponding sub-list
of the collected input (ties keep input order), and the ranks are `1..k`. -/
theorem c7_ranking_direction (results : List BatchRes) (msub : Option (List String))
    (m : String) (c : Comparison) (rinfo : RankingInfo)
    (hc : compare_runs results msub = .ok c)
    (hr : c.rankings.lookup m = some rinfo)
    (hnn : (seriesValuesOf m (results.filter (fun r => r.success))).all
      (fun e => !e.2.isNan) = true) :
    (rinfo.higher_is_better = true ↔ m ∈ higher_is_better_metrics) ∧
    higher_is_better_metrics = ["NSC", "Cor", "R2", "KGE2009", "KGE2012", "d", "d1", "PERS"] ∧
    (rinfo.higher_is_better = true →
      (rinfo.ranking.map (fun e => e.value)).Pairwise (fun a b => blt a b = false)) ∧
    (rinfo.higher_is_better = false →
      (rinfo.ranking.map (fun e => e.value)).Pairwise (fun a b => blt b a = false)) ∧
    (∀ v : EFloat, (rinfo.ranking.filter (fun e => e.value = v)).map (fun e => e.name) =
      ((seriesValuesOf m (results.filter (fun r => r.success))).filter
        (fun e => e.2 = v)).map Prod.fst) ∧
    rinfo.ranking.map (fun e => e.rank) =
      List.range' 1 (seriesValuesOf m (results.filter (fun r => r.success))).length := by
  unfold compare_runs at hc
  by_cases h1 : results.isEmpty
  · rw [if_pos h1] at hc
    simp at hc
  · rw [if_neg h1] at hc
    by_cases h2 : (results.filter (fun r => r.success)).isEmpty
    · rw [if_pos h2] at hc
      simp at hc
    · rw [if_neg h2] at hc
      injection hc with hcc
      subst hcc
      exact rankings_lookup_props (results.filter (fun r => r.success)) _ m rinfo hr hnn

/-- The concrete two-run batch used by the C7 witness. -/
def c7ResultsW : List BatchRes :=
  [BatchRes.ok "X" 2 [("RMSE", fin 1), ("NSC", fin 2)],
   BatchRes.ok "Y" 2 [("RMSE", fin 2), ("NSC", fin 1)]]

/-- The comparison computed on the witness batch. -/
def c7CmpW : Comparison :=
  match compare_runs c7ResultsW none with
  | .ok c => c
  | .err _ => ⟨0, [], [], [], []⟩

/-- The RMSE ranking of the witness comparison. -/
def c7RinfoW : RankingInfo :=
  match c7CmpW.rankings.lookup "RMSE" with
  | some r => r
  | none => ⟨false, [], "", ""⟩

unseal Rat.mul Rat.add Rat.inv Rat.sub in
/-- C7 witness: the claim applied to the metric `RMSE` over two successful
runs with NaN-free values. -/
theorem c7_witness :
    compare_runs c7ResultsW none = .ok c7CmpW ∧
    c7CmpW.rankings.lookup "RMSE" = some c7RinfoW ∧
    (seriesValuesOf "RMSE" (c7ResultsW.filter (fun r => r.success))).all
      (fun e => !e.2.isNan) = true ∧
    ((c7RinfoW.higher_is_better = true ↔ "RMSE" ∈ higher_is_better_metrics) ∧
     higher_is_better_metrics = ["NSC", "Cor", "R2", "KGE2009", "KGE2012", "d", "d1", "PERS"] ∧
     (c7RinfoW.higher_is_better = true →
       (c7RinfoW.ranking.map (fun e => e.value)).Pairwise (fun a b => blt a b = false)) ∧
     (c7RinfoW.higher_is_better = false →
       (c7RinfoW.ranking.map (fun e => e.value)).Pairwise (fun a b => blt b a = false)) ∧
     (∀ v : EFloat, (c7RinfoW.ranking.filter (fun e => e.value = v)).map (fun e => e.name) =
       ((seriesValuesOf "RMSE" (c7ResultsW.filter (fun r => r.success))).filter
         (fun e => e.2 = v)).map Prod.fst) ∧
     c7RinfoW.ranking.map (fun e => e.rank) =
       List.range' 1 (seriesValuesOf "RMSE" (c7ResultsW.filter (fun r => r.success))).length) :=
  ⟨by decide, by decide, by decide,
   c7_ranking_direction c7ResultsW none "RMSE" c7CmpW c7RinfoW (by decide) (by decide) (by decide)⟩

theorem joinWith_cons_cons (sep a b : String) (rest : List String) :
    joinWith sep (a :: b :: rest) = a ++ sep ++ joinWith sep (b :: rest) := rfl

theorem joinWith_single (sep a : String) : joinWith sep [a] = a := rfl

theorem renderJ_str (ind : Nat) (s : String) :
    renderJ ind (.str s) = "\"" ++ jsonEscape s ++ "\"" := by
  simp [renderJ]

theorem renderJ_intv (ind n : Nat) : renderJ ind (.intv n) = toString n := by
  simp [renderJ]

theorem renderJ_obj_cons (ind : Nat) (kv : String × JVal) (kvs : List (String × JVal)) :
    renderJ ind (.obj (kv :: kvs)) =
      "\x7b\n" ++ joinWith ",\n" (renderObj (ind + 2) (kv :: kvs)) ++ "\n" ++ pad ind ++ "\x7d" := by
  simp [renderJ]

theorem renderObj_cons (ind : Nat) (kv : String × JVal) (kvs : List (String × JVal)) :
    renderObj ind (kv :: kvs) =
      (pad ind ++ "\"" ++ jsonEscape kv.1 ++ "\"" ++ ": " ++ renderJ ind kv.2) :: renderObj ind kvs := by
  rcases kv with ⟨k, v⟩
  simp [renderObj]

theorem renderObj_nil (ind : Nat) : renderObj ind [] = [] := by
  simp [renderObj]

theorem renderC_str (s : String) : renderC (.str s) = "\"" ++ jsonEscape s ++ "\"" := by
  simp [renderC]

theorem renderC_intv (n : Nat) : renderC (.intv n) = toString n := by
  simp [renderC]

theorem renderC_obj (kvs : List (String × JVal)) :
    renderC (.obj kvs) = "\x7b" ++ joinWith ", " (renderCObj kvs) ++ "\x7d" := by
  simp [renderC]

theorem renderCObj_cons (kv : String × JVal) (kvs : List (String × JVal)) :
    renderCObj (kv :: kvs) =
      ("\"" ++ jsonEscape kv.1 ++ "\"" ++ ": " ++ renderC kv.2) :: renderCObj kvs := by
  rcases kv with ⟨k, v⟩
  simp [renderCObj]

theorem renderCObj_nil : renderCObj [] = [] := by
  simp [renderCObj]

/-- The serialized `export_to_json` output up to, and not including, the
escaped timestamp value. -/
def exportHead (pretty : Bool) : String :=
  if pretty then
    "\x7b\n" ++ pad (0 + 2) ++ "\"" ++ jsonEscape "export_timestamp" ++ "\"" ++ ": " ++ "\""
  else
    "\x7b" ++ "\"" ++ jsonEscape "export_timestamp" ++ "\"" ++ ": " ++ "\""

/-- The remainder of the `export_to_json` output after the escaped
timestamp value: a function of the results list alone. -/
def exportTail (rs : List BatchRes) (pretty : Bool) : String :=
  if pretty then
    "\"" ++ ",\n" ++
      (pad (0 + 2) ++ "\"" ++ jsonEscape "num_analyses" ++ "\"" ++ ": " ++
        toString rs.length) ++ ",\n" ++
      (pad (0 + 2) ++ "\"" ++ jsonEscape "num_successful" ++ "\"" ++ ": " ++
        toString (rs.filter (fun r => r.success)).length) ++ ",\n" ++
      (pad (0 + 2) ++ "\"" ++ jsonEscape "num_failed" ++ "\"" ++ ": " ++
        toString (rs.filter (fun r => !r.success)).length) ++ ",\n" ++
      (pad (0 + 2) ++ "\"" ++ jsonEscape "results" ++ "\"" ++ ": " ++
        renderJ (0 + 2) (JVal.arr (rs.map resultJson))) ++ "\n" ++ pad 0 ++ "\x7d"
  else
    "\"" ++ ", " ++
      ("\"" ++ jsonEscape "num_analyses" ++ "\"" ++ ": " ++ toString rs.length) ++ ", " ++
      ("\"" ++ jsonEscape "num_successful" ++ "\"" ++ ": " ++
        toString (rs.filter (fun r => r.success)).length) ++ ", " ++
      ("\"" ++ jsonEscape "num_failed" ++ "\"" ++ ": " ++
        toString (rs.filter (fun r => !r.success)).length) ++ ", " ++
      ("\"" ++ jsonEscape "results" ++ "\"" ++ ": " ++
        renderC (JVal.arr (rs.map resultJson))) ++ "\x7d"

/-- The report text up to, and not including, the embedded clock reading. -/
def reportHead : String :=
  ruleEq ++ "\n" ++ "TIME SERIES ANALYSIS BATCH REPORT" ++ "\n" ++ ruleEq ++ "\n" ++ "Generated: "

/-- The remainder of the report text after the clock reading: a function of
the results list alone. -/
def reportTail (rs : List BatchRes) : String :=
  " UTC" ++ "\n" ++ ("Total analyses: " ++ toString rs.length) ++ "\n" ++
  ("Successful: " ++ toString (rs.filter (fun r => r.success)).length) ++ "\n" ++
  ("Failed: " ++ toString (rs.filter (fun r => !r.success)).length) ++ "\n" ++
  joinWith "\n" ("" :: (successBlock (rs.filter (fun r => r.success)) ++
    failedBlock (rs.filter (fun r => !r.success)) ++ ["\n" ++ ruleEq]))

/-- C2 (amended): `export_to_json` and `generate_summary_report` are
deterministic functions of the results list and of the wall-clock reading
taken during the call: each output decomposes as a fixed head, the embedded
clock string, and a tail depending only on the input list. Two calls on the
same list agree everywhere except in the embedded timestamp — and therefore
are not identical strings once the clock has advanced (see the
counterexample). -/
theorem c2_deterministic_modulo_timestamp :
    (∀ (rs : List BatchRes) (t : String) (pretty : Bool),
      export_to_json rs t pretty =
        exportHead pretty ++ jsonEscape (t ++ "Z") ++ exportTail rs pretty) ∧
    (∀ (rs : List BatchRes) (now : String),
      generate_summary_report rs now = reportHead ++ now ++ reportTail rs) := by
  constructor
  · intro rs t pretty
    cases pretty
    · show renderC (JVal.obj
        [("export_timestamp", .str (t ++ "Z")),
         ("num_analyses", .intv rs.length),
         ("num_successful", .intv (rs.filter (fun r => r.success)).length),
         ("num_failed", .intv (rs.filter (fun r => !r.success)).length),
         ("results", .arr (rs.map resultJson))]) =
        exportHead false ++ jsonEscape (t ++ "Z") ++ exportTail rs false
      rw [renderC_obj, renderCObj_cons, renderCObj_cons, renderCObj_cons, renderCObj_cons,
        renderCObj_cons, renderCObj_nil]
      simp only [renderC_str, renderC_intv,
        joinWith_cons_cons, joinWith_cons_cons, joinWith_cons_cons, joinWith_cons_cons,
        joinWith_single]
      simp only [exportHead, exportTail, Bool.false_eq_true, if_false]
      simp only [String.append_assoc]
    · show renderJ 0 (JVal.obj
        [("export_timestamp", .str (t ++ "Z")),
         ("num_analyses", .intv rs.length),
         ("num_successful", .intv (rs.filter (fun r => r.success)).length),
         ("num_failed", .intv (rs.filter (fun r => !r.success)).length),
         ("results", .arr (rs.map resultJson))]) =
        exportHead true ++ jsonEscape (t ++ "Z") ++ exportTail rs true
      rw [renderJ_obj_cons, renderObj_cons, renderObj_cons, renderObj_cons, renderObj_cons,
        renderObj_cons, renderObj_nil]
      simp only [renderJ_str, renderJ_intv,
        joinWith_cons_cons, joinWith_cons_cons, joinWith_cons_cons, joinWith_cons_cons,
        joinWith_single]
      simp only [exportHead, exportTail, if_true]
      simp only [String.append_assoc]
  · intro rs now
    show joinWith "\n"
      (ruleEq :: "TIME SERIES ANALYSIS BATCH REPORT" :: ruleEq ::
       ("Generated: " ++ now ++ " UTC") ::
       ("Total analyses: " ++ toString rs.length) ::
       ("Successful: " ++ toString (rs.filter (fun r => r.success)).length) ::
       ("Failed: " ++ toString (rs.filter (fun r => !r.success)).length) ::
       "" ::
       (successBlock (rs.filter (fun r => r.success)) ++
        failedBlock (rs.filter (fun r => !r.success)) ++ ["\n" ++ ruleEq])) =
      reportHead ++ now ++ reportTail rs
    rw [joinWith_cons_cons, joinWith_cons_cons, joinWith_cons_cons, joinWith_cons_cons,
      joinWith_cons_cons, joinWith_cons_cons, joinWith_cons_cons]
    simp only [reportHead, reportTail]
    simp only [String.append_assoc]

set_option maxRecDepth 4096 in
unseal Rat.mul Rat.add Rat.inv Rat.sub in
/-- C2 counterexample: the same empty results list serialized at two
different clock readings gives different output strings for both
`export_to_json` and `generate_summary_report` — the outputs are not
deterministic functions of the results list alone. -/
theorem c2_counterexample :
    export_to_json [] "2024-01-01T00:00:00" true ≠
      export_to_json [] "2024-01-02T00:00:00" true ∧
    generate_summary_report [] "2024-01-01 00:00:00" ≠
      generate_summary_report [] "2024-01-02 00:00:00" := by
  constructor
  · decide
  · decide
